import Mathlib

/-!
Verification of the RunNote workout-analysis core against its specification.

The TypeScript source is shallowly embedded: JS numbers are modelled as `ℚ`
(with the special values `Infinity`/`NaN` modelled explicitly where a claim
depends on them), strings as `String` or `List Char`, thrown exceptions as
`Except String`.
-/

set_option maxRecDepth 10000

namespace RunNote



/-- JS `Math.round`: rounds half toward positive infinity. -/
def jsRound (q : ℚ) : ℤ := ⌊q + 1/2⌋

/-- JS number truncation toward zero (used by the `%` operator). -/
def jsTrunc (q : ℚ) : ℤ := if 0 ≤ q then ⌊q⌋ else ⌈q⌉

/-- JS remainder `a % b` for finite operands (`b ≠ 0`): `a - b * trunc (a / b)`. -/
def jsRem (a b : ℚ) : ℚ := a - b * (jsTrunc (a / b) : ℚ)

/-- A JS number that may be one of the non-finite IEEE values.  Only division
can produce them in the embedded code. -/
inductive JsNumber where
  | num : ℚ → JsNumber
  | posInf : JsNumber
  | negInf : JsNumber
  | nan : JsNumber
deriving DecidableEq, Repr

/-- JS division of finite numbers: division by zero yields `Infinity`
(resp. `-Infinity`, `NaN` for `0/0`) instead of raising. -/
def jsDiv (a b : ℚ) : JsNumber :=
  if b = 0 then (if a = 0 then .nan else if 0 < a then .posInf else .negInf)
  else .num (a / b)

/-- `String.prototype.padStart(2, '0')`. -/
def padStart2 (s : String) : String :=
  if s.length < 2 then ⟨List.replicate (2 - s.length) '0'⟩ ++ s else s

/-- JS `Number.prototype.toFixed(1)` for the nonnegative finite values used in
this code base: the digit string of the integer nearest `q * 10` (ties toward
the larger value), with a decimal point before the last digit. -/
def jsToFixed1 (q : ℚ) : String :=
  let n : ℤ := ⌊q * 10 + 1/2⌋
  toString (n / 10) ++ "." ++ toString (n % 10)

/-!  `workoutCalculations.ts` -/

/-- `formatPace`: format seconds-per-mile as `MM:SS`
(`Math.floor(s/60)` then `Math.round(s % 60)` padded to two digits). -/
def formatPace (secondsPerMile : ℚ) : String :=
  let minutes : ℤ := ⌊secondsPerMile / 60⌋
  let seconds : ℤ := jsRound (jsRem secondsPerMile 60)
  toString minutes ++ ":" ++ padStart2 (toString seconds)

structure BaseWorkoutMetrics where
  distance_miles : ℚ
  pace_seconds_per_mile : JsNumber
  average_heartrate : ℚ
deriving DecidableEq, Repr

structure RunMetricsParams where
  distance_meters : ℚ
  moving_time_seconds : ℚ
  average_heartrate : ℚ
deriving DecidableEq, Repr

/-- `calculateRunMetrics`: no guard on zero distance; JS division by zero
produces `Infinity` in the pace field. -/
def calculateRunMetrics (params : RunMetricsParams) : BaseWorkoutMetrics :=
  let distanceMiles := params.distance_meters / 1609.344
  let secondsPerMile := jsDiv params.moving_time_seconds distanceMiles
  { distance_miles := distanceMiles
    pace_seconds_per_mile := secondsPerMile
    average_heartrate := (jsRound params.average_heartrate : ℚ) }

structure HrLap where
  distance : ℚ
  moving_time : ℚ
  average_heartrate : ℚ
deriving DecidableEq, Repr

/-- `calculateTempoBlockMetrics`: totals over the lap list, average HR rounded.
(For an empty lap list JS would produce `NaN` heart rate; the `ℚ` embedding
gives `0` there, a case no claim exercises.) -/
def calculateTempoBlockMetrics (laps : List HrLap) : BaseWorkoutMetrics :=
  let totalDistance := (laps.map (·.distance)).sum
  let totalTime := (laps.map (·.moving_time)).sum
  let avgHr : ℤ := jsRound ((laps.map (·.average_heartrate)).sum / (laps.length : ℚ))
  let distanceMiles := totalDistance / 1609.344
  let secondsPerMile := jsDiv totalTime distanceMiles
  { distance_miles := distanceMiles
    pace_seconds_per_mile := secondsPerMile
    average_heartrate := (avgHr : ℚ) }

/-- The ladder of conventional track/road distances. -/
def standardsList : List ℚ := [100, 200, 300, 400, 600, 800, 1000, 1200, 1600]

/-- `roundToStandardDistance`: snap to the nearest standard distance when within
15 percent, otherwise round to the nearest multiple of 100.  The loop keeps the
first (earliest) standard on ties (strict `<`).  In JS, `minDiff / 0` is
`Infinity`, so the 15-percent branch is never taken for `meters = 0`; the
`meters ≠ 0` conjunct models exactly that. -/
def roundToStandardDistance (meters : ℚ) : ℚ :=
  let r := standardsList.foldl
    (fun p std => if |meters - std| < p.2 then (std, |meters - std|) else p)
    (100, |meters - 100|)
  if meters ≠ 0 ∧ r.2 / meters < 0.15 then r.1
  else 100 * ((jsRound (meters / 100) : ℤ) : ℚ)

/-- Reference form of the rounder, written from the specification: find the
nearest ladder value (`List.argmin`, which keeps the earliest entry on ties);
within 15 percent return it, otherwise round to the nearest multiple of 100;
`round 0 = 0` is the guarded division-by-zero edge case. -/
def roundToStandardDistanceSpec (meters : ℚ) : ℚ :=
  if meters = 0 then 0
  else
    match standardsList.argmin (fun s => |meters - s|) with
    | some closest =>
        if |meters - closest| / meters < 0.15 then closest
        else 100 * ((jsRound (meters / 100) : ℤ) : ℚ)
    | none => 0

/-- The nearest-with-earliest-tie winner of the fold, specialised to the
distance-to-`meters` objective. -/
def nearestWinner (meters : ℚ) (a : ℚ) (l : List ℚ) : ℚ :=
  l.foldl (fun c b => if |meters - b| < |meters - c| then b else c) a

/-- The tail of the standards ladder (everything after the initial `100`). -/
def tailStandards : List ℚ := [200, 300, 400, 600, 800, 1000, 1200, 1600]

/-- The chunk-walking loop of `findRepeatingPattern` for one candidate unit
length, with a fuel argument for structural recursion (the wrapper below
passes the list length, which always suffices since each step consumes at
least one element for `len ≥ 1`): walk `rest` in `len`-sized chunks, counting
full chunks equal to `pattern`; a trailing short chunk must equal the
corresponding initial part of `pattern` and is not counted. -/
def checkChunksFuel (pattern : List ℚ) (len : ℕ) : ℕ → List ℚ → ℕ → Option ℕ
  | _, [], fullSets => some fullSets
  | 0, _ :: _, _ => none
  | fuel + 1, c :: rest, fullSets =>
    if len ≤ (c :: rest).length then
      if (c :: rest).take len = pattern then
        checkChunksFuel pattern len fuel ((c :: rest).drop len) (fullSets + 1)
      else none
    else if (c :: rest) = pattern.take (c :: rest).length then some fullSets
    else none

/-- The chunk walk of `findRepeatingPattern`. -/
def checkChunks (pattern : List ℚ) (len : ℕ) (rest : List ℚ) (fullSets : ℕ) : Option ℕ :=
  checkChunksFuel pattern len rest.length rest fullSets

/-- `findRepeatingPattern`: try unit lengths from 1 up to half the array
length; return the first unit that repeats with at least 2 full repetitions,
paired with the number of full repetitions. -/
def findRepeatingPattern (arr : List ℚ) : Option (List ℚ × ℕ) :=
  (List.range' 1 (arr.length / 2)).findSome? (fun len =>
    match checkChunks (arr.take len) len arr 0 with
    | some fullSets => if 2 ≤ fullSets then some (arr.take len, fullSets) else none
    | none => none)

/-- Validity of a candidate unit length, written from the claim: at least two
full repetitions, every full `len`-sized chunk equals the unit (the first `len`
elements), and a trailing short chunk must be an initial segment of the unit. -/
def unitValid (arr : List ℚ) (len : ℕ) : Prop :=
  2 ≤ arr.length / len ∧
  (∀ i < arr.length / len, (arr.drop (i * len)).take len = arr.take len) ∧
  (arr.length % len ≠ 0 →
    arr.drop (arr.length / len * len) = (arr.take len).take (arr.length % len))

instance (arr : List ℚ) (len : ℕ) : Decidable (unitValid arr len) := by
  unfold unitValid
  infer_instance

/-- Reference form of the detector, written from the claim: the first valid
unit length in `[1, …, ⌊n/2⌋]`, with the unit being the first `len` elements
and the set count the number of full chunks. -/
def findRepeatingPatternSpec (arr : List ℚ) : Option (List ℚ × ℕ) :=
  ((List.range' 1 (arr.length / 2)).find? (fun len => decide (unitValid arr len))).map
    (fun len => (arr.take len, arr.length / len))

/-- What the chunk walk verifies, as a predicate on the remaining list. -/
def chunkOK (pattern : List ℚ) (len : ℕ) (rest : List ℚ) : Prop :=
  (∀ i < rest.length / len, (rest.drop (i * len)).take len = pattern) ∧
  (rest.length % len ≠ 0 →
    rest.drop (rest.length / len * len) = pattern.take (rest.length % len))

instance (pattern : List ℚ) (len : ℕ) (rest : List ℚ) :
    Decidable (chunkOK pattern len rest) := by
  unfold chunkOK
  infer_instance

/-!  `calculateRepetitionStructure` -/

structure SpeedLap where
  distance : ℚ
  moving_time : ℚ
  average_speed : ℚ
deriving DecidableEq, Repr

instance : Inhabited SpeedLap := ⟨⟨0, 0, 0⟩⟩

/-- A work/recovery distance that is a single number or a repeating pattern
(the source's `number | number[]`). -/
inductive DistanceSpec where
  | scalar : ℚ → DistanceSpec
  | pattern : List ℚ → DistanceSpec
deriving DecidableEq, Repr

structure RepetitionWorkoutMetrics where
  sets : ℕ
  reps_per_set : ℤ
  work_distance_meters : DistanceSpec
  recovery_distance_meters : DistanceSpec
  between_set_recovery_distance_meters : ℚ
deriving DecidableEq, Repr

instance : DecidableEq (Except String RepetitionWorkoutMetrics) := fun a b =>
  match a, b with
  | .error x, .error y => decidable_of_iff (x = y) (by simp)
  | .error _, .ok _ => isFalse (by simp)
  | .ok _, .error _ => isFalse (by simp)
  | .ok x, .ok y => decidable_of_iff (x = y) (by simp)

/-- Work lap: fast (`> 4.3 m/s`) and short (180–600 m). -/
def isWorkLap (lap : SpeedLap) : Bool :=
  decide ((4.3 : ℚ) < lap.average_speed) &&
  decide ((180 : ℚ) ≤ lap.distance) && decide (lap.distance ≤ (600 : ℚ))

/-- Regular recovery lap: slow (`< 3.5 m/s`) and short (150–600 m).
(Disjoint from the work criterion by the speed bounds, so the source's
`else if` chain is equivalent to independent predicates.) -/
def isRegularRecoveryLap (lap : SpeedLap) : Bool :=
  decide (lap.average_speed < (3.5 : ℚ)) &&
  decide ((150 : ℚ) ≤ lap.distance) && decide (lap.distance ≤ (600 : ℚ))

def lapAt (laps : List SpeedLap) (i : ℕ) : SpeedLap := laps.getD i default

/-- Between-set recovery lap at index `i`: slow, 600–2000 m, not the first
lap, not within the final 3 laps, with a work lap strictly before and strictly
after.  (In the source `hasWorkBefore` consults the work indices accumulated so
far, which at step `i` are exactly the work laps among the first `i` laps.) -/
def isBetweenSetRecoveryLap (laps : List SpeedLap) (i : ℕ) : Bool :=
  let lap := lapAt laps i
  decide (lap.average_speed < (3.5 : ℚ)) &&
  decide ((600 : ℚ) < lap.distance) && decide (lap.distance ≤ (2000 : ℚ)) &&
  decide (0 < i) && decide (i + 3 < laps.length) &&
  (laps.take i).any isWorkLap &&
  (laps.drop (i + 1)).any isWorkLap

/-- `calculateRepetitionStructure` (the current variant, with input
validation): classify laps, round distances, detect repeating patterns in the
work and recovery distances, and derive sets / reps / distances.  Thrown
`Error`s are modelled as `Except.error`. -/
def calculateRepetitionStructure (laps : List SpeedLap) : Except String RepetitionWorkoutMetrics :=
  if laps.isEmpty then
    .error ("calculateRepetitionStructure: No laps provided")
  else
    let workLaps := (List.range laps.length).filter (fun i => isWorkLap (lapAt laps i))
    let regularRecoveryLaps :=
      (List.range laps.length).filter (fun i => isRegularRecoveryLap (lapAt laps i))
    let betweenSetRecoveryLaps :=
      (List.range laps.length).filter (fun i => isBetweenSetRecoveryLap laps i)
    if workLaps.isEmpty then
      .error ("calculateRepetitionStructure: No work laps found. This does not appear to be a repetition workout. Work laps must be 180-600m and >4.3 m/s.")
    else
      let workDistances := workLaps.map (fun i => roundToStandardDistance (lapAt laps i).distance)
      let recoveryDistances :=
        regularRecoveryLaps.map (fun i => roundToStandardDistance (lapAt laps i).distance)
      let betweenSetRecovery : ℚ :=
        match betweenSetRecoveryLaps with
        | [] => 0
        | i :: _ => roundToStandardDistance (lapAt laps i).distance
      let workPattern := findRepeatingPattern workDistances
      let recoveryPattern := findRepeatingPattern recoveryDistances
      let bsr := betweenSetRecoveryLaps.length
      let srw : ℕ × ℤ × DistanceSpec :=
        match workPattern with
        | some (pat, psets) =>
          if pat.length = 1 then
            if 0 < bsr then
              (bsr + 1, jsRound ((psets : ℚ) / ((bsr : ℚ) + 1)), .scalar (pat.headD 0))
            else
              (1, (psets : ℤ), .scalar (pat.headD 0))
          else
            (if 0 < bsr then bsr + 1 else psets, (pat.length : ℤ), .pattern pat)
        | none =>
          let avgWorkDist := workDistances.sum / (workDistances.length : ℚ)
          let wd := roundToStandardDistance avgWorkDist
          if 0 < bsr then
            (bsr + 1, jsRound ((workLaps.length : ℚ) / ((bsr : ℚ) + 1)), .scalar wd)
          else
            (1, (workLaps.length : ℤ), .scalar wd)
      let workDistance := srw.2.2
      let recoveryFallback : DistanceSpec :=
        if recoveryDistances.isEmpty then
          match workDistance with
          | .scalar q => .scalar q
          | .pattern l => .scalar (l.headD 0)
        else
          .scalar (roundToStandardDistance
            (recoveryDistances.sum / (recoveryDistances.length : ℚ)))
      let recoveryDistance : DistanceSpec :=
        match recoveryPattern with
        | some (rpat, _) => if 1 < rpat.length then .pattern rpat else recoveryFallback
        | none => recoveryFallback
      .ok
        { sets := srw.1
          reps_per_set := srw.2.1
          work_distance_meters := workDistance
          recovery_distance_meters := recoveryDistance
          between_set_recovery_distance_meters := betweenSetRecovery }

/-- The lap fixture of activity 16445002078 from the repository's test file:
warmup, 2×8 alternating (200 m fast / 200 m slow) pairs with one 800 m
between-set recovery, cooldown. -/
def activity16445002078_laps : List SpeedLap :=
  [⟨2556.63, 946, 2.7⟩,
   ⟨200.0, 44, 4.55⟩, ⟨200.0, 69, 2.9⟩,
   ⟨200.0, 43, 4.65⟩, ⟨200.0, 81, 2.47⟩,
   ⟨200.0, 41, 4.88⟩, ⟨200.0, 70, 2.86⟩,
   ⟨200.0, 42, 4.76⟩, ⟨200.0, 79, 2.53⟩,
   ⟨200.0, 41, 4.88⟩, ⟨200.0, 77, 2.6⟩,
   ⟨200.0, 41, 4.88⟩, ⟨200.0, 77, 2.6⟩,
   ⟨200.0, 40, 5.0⟩, ⟨200.0, 73, 2.74⟩,
   ⟨200.0, 41, 4.88⟩, ⟨200.0, 71, 2.82⟩,
   ⟨800.0, 274, 2.92⟩,
   ⟨200.0, 44, 4.55⟩, ⟨200.0, 75, 2.67⟩,
   ⟨200.0, 41, 4.88⟩, ⟨200.0, 85, 2.35⟩,
   ⟨200.0, 41, 4.88⟩, ⟨200.0, 92, 2.17⟩,
   ⟨200.0, 41, 4.88⟩, ⟨200.0, 75, 2.67⟩,
   ⟨200.0, 42, 4.76⟩, ⟨200.0, 91, 2.2⟩,
   ⟨200.0, 43, 4.65⟩, ⟨200.0, 94, 2.13⟩,
   ⟨200.0, 44, 4.55⟩, ⟨200.0, 69, 2.9⟩,
   ⟨200.0, 44, 4.55⟩, ⟨200.0, 75, 2.67⟩,
   ⟨1522.3, 525, 2.9⟩]

/-!  `workoutAnalysis.ts` and `activityFormatter.ts` -/

inductive WorkoutType where
  | L | T | E | V | R
deriving DecidableEq, Repr

/-- The one-letter code used when a `WorkoutType` is interpolated into a
summary string. -/
def WorkoutType.code : WorkoutType → String
  | .L => "L"
  | .T => "T"
  | .E => "E"
  | .V => "V"
  | .R => "R"

inductive TempoStructure where
  | interval | continuous
deriving DecidableEq, Repr

structure IntervalWorkoutMetrics where
  interval_count : ℕ
  distance_per_interval_miles : ℚ
  individual_paces_seconds : List ℚ
  average_heartrate : ℚ
deriving DecidableEq, Repr

structure WorkoutAnalysisResult where
  type : WorkoutType
  tempo_structure : Option TempoStructure
  metrics : Option BaseWorkoutMetrics
  interval_metrics : Option IntervalWorkoutMetrics
  repetition_metrics : Option RepetitionWorkoutMetrics
deriving DecidableEq, Repr

structure ActivityLap where
  distance : ℚ
  moving_time : ℚ
  average_speed : ℚ
  pace_zone : Option ℤ
deriving DecidableEq, Repr

structure Activity where
  distance : ℚ
  moving_time : ℚ
  average_heartrate : ℚ
  laps : List ActivityLap
deriving DecidableEq, Repr

/-- `isEasyRun`: the lap list is nonempty and every lap is in pace zone 1
or 2 (a missing `pace_zone` fails the test, as in JS). -/
def isEasyRun (a : Activity) : Bool :=
  !a.laps.isEmpty &&
  a.laps.all (fun lap => decide (lap.pace_zone = some 1) || decide (lap.pace_zone = some 2))

/-- `isLongRun`: at least 10 miles (16093.44 m) or at least 90 minutes. -/
def isLongRun (a : Activity) : Bool :=
  decide ((16093.44 : ℚ) ≤ a.distance) || decide ((5400 : ℚ) ≤ a.moving_time)

/-- The deterministic part of `analyzeWorkout`: activities whose laps are all
in pace zones 1–2 are classified without AI as Long or Easy from the aggregate
stats.  All other activities are sent to the external LLM classifier, which is
out of scope (spec §1); that path is modelled as `none`. -/
def analyzeWorkoutDet (a : Activity) : Option WorkoutAnalysisResult :=
  if isEasyRun a then
    let metrics := calculateRunMetrics ⟨a.distance, a.moving_time, a.average_heartrate⟩
    some
      { type := if isLongRun a then .L else .E
        tempo_structure := none
        metrics := some metrics
        interval_metrics := none
        repetition_metrics := none }
  else none

/-- JS string interpolation of a number.  Every number interpolated along the
paths exercised by the claims is an integer; the non-integer rendering (JS
decimal notation) is represented as `num/den` and never produced in a claim. -/
def jsNumToString (q : ℚ) : String :=
  if q.den = 1 then toString q.num else toString q.num ++ "/" ++ toString q.den

/-- Interpolation of a `number | number[]` distance value (a JS array prints
as its elements joined by commas). -/
def distToString : DistanceSpec → String
  | .scalar q => jsNumToString q
  | .pattern l => String.intercalate (",") (l.map jsNumToString)

/-- `formatPace` lifted to possibly non-finite pace values, mirroring the JS
evaluation (`Math.floor(Infinity/60)` is `Infinity`, `Infinity % 60` is
`NaN`, …). -/
def formatPaceJs : JsNumber → String
  | .num q => formatPace q
  | .posInf => "Infinity:NaN"
  | .negInf => "-Infinity:NaN"
  | .nan => "NaN:NaN"

/-- `formatWorkoutSummary`: repetition metrics first, then interval metrics,
then continuous metrics, else a fallback. -/
def formatWorkoutSummary (result : WorkoutAnalysisResult) : String :=
  match result.repetition_metrics with
  | some rm =>
    let workDist := distToString rm.work_distance_meters ++ "m"
    let recDist := distToString rm.recovery_distance_meters ++ "m"
    if rm.sets = 1 then
      toString rm.reps_per_set ++ " x " ++ workDist ++ " R w/" ++ recDist ++ " jog"
    else
      let betweenSetDist :=
        if 0 < rm.between_set_recovery_distance_meters then
          jsNumToString rm.between_set_recovery_distance_meters ++ "m"
        else recDist
      toString rm.sets ++ " x(" ++ toString rm.reps_per_set ++ " x " ++ workDist ++
        " R w/" ++ recDist ++ " jog) w/" ++ betweenSetDist ++ " jog"
  | none =>
    match result.interval_metrics with
    | some im =>
      let formattedPaces := String.intercalate (", ") (im.individual_paces_seconds.map formatPace)
      let distance :=
        if im.distance_per_interval_miles < 1 then jsToFixed1 im.distance_per_interval_miles ++ " mi"
        else toString (jsRound im.distance_per_interval_miles) ++ " mi"
      result.type.code ++ " " ++ toString im.interval_count ++ " x " ++ distance ++
        " @ " ++ formattedPaces
    | none =>
      match result.metrics with
      | some m =>
        let distance :=
          if 10 ≤ m.distance_miles then toString (jsRound m.distance_miles) ++ " mi"
          else jsToFixed1 m.distance_miles ++ " mi"
        let pace := formatPaceJs m.pace_seconds_per_mile
        let hr := jsRound m.average_heartrate
        if result.type = .T ∧ result.tempo_structure = some .continuous then
          result.type.code ++ " " ++ distance ++ " @ avg " ++ pace ++ "/mi"
        else
          result.type.code ++ " " ++ distance ++ " @ " ++ pace ++ "/mi (HR " ++ toString hr ++ ")"
      | none => result.type.code ++ " run"

/-- JS `\s` for the character set used by this code (ASCII whitespace). -/
def isWsChar (c : Char) : Bool :=
  c == ' ' || c == '\t' || c == '\n' || c == '\r' || c == '\x0b' || c == '\x0c'

/-- Replace every (non-overlapping, leftmost) `"\r\n"` by `"\n"`. -/
def replaceCRLF : List Char → List Char
  | [] => []
  | [c] => [c]
  | c1 :: c2 :: rest =>
    if c1 = '\r' ∧ c2 = '\n' then '\n' :: replaceCRLF rest
    else c1 :: replaceCRLF (c2 :: rest)

/-- One step of `/\s*\n+\s*/g → " "`: a maximal whitespace run containing a
newline collapses to a single space; other runs and characters are kept.
Fuel-structured; the wrapper passes the list length, which always suffices. -/
def collapseNlFuel : ℕ → List Char → List Char
  | _, [] => []
  | 0, _ => []
  | fuel + 1, c :: rest =>
    if isWsChar c then
      (if (c :: rest.takeWhile isWsChar).contains '\n' then [' ']
       else c :: rest.takeWhile isWsChar) ++ collapseNlFuel fuel (rest.dropWhile isWsChar)
    else c :: collapseNlFuel fuel rest

/-- `summary.replace(/\s*\n+\s*/g, " ")`. -/
def collapseNl (l : List Char) : List Char := collapseNlFuel l.length l

/-- Case-insensitive literal match; on success returns the rest of the
input. -/
def matchCI : List Char → List Char → Option (List Char)
  | [], l => some l
  | _ :: _, [] => none
  | pc :: pr, c :: cr => if c.toLower = pc.toLower then matchCI pr cr else none

/-- Try to match `\s*--\s*from\s*RunNote\s*` (case-insensitively) at the head
of the input; on success return the input after the match. -/
def matchMarker (l : List Char) : Option (List Char) :=
  match matchCI ('-' :: '-' :: []) (l.dropWhile isWsChar) with
  | none => none
  | some l2 =>
    match matchCI ('f' :: 'r' :: 'o' :: 'm' :: []) (l2.dropWhile isWsChar) with
    | none => none
    | some l3 =>
      match matchCI ('R' :: 'u' :: 'n' :: 'N' :: 'o' :: 't' :: 'e' :: [])
          (l3.dropWhile isWsChar) with
      | none => none
      | some l4 => some (l4.dropWhile isWsChar)

/-- `replace(/\s*--\s*from\s*RunNote\s*/gi, "")`, scanning left to right.
Fuel-structured; the wrapper passes the list length, which always suffices
because a match consumes at least the two `-` characters. -/
def stripMarkersFuel : ℕ → List Char → List Char
  | _, [] => []
  | 0, _ => []
  | fuel + 1, c :: rest =>
    match matchMarker (c :: rest) with
    | some l5 => stripMarkersFuel fuel l5
    | none => c :: stripMarkersFuel fuel rest

/-- Global removal of the `--from RunNote` marker pattern. -/
def stripMarkers (l : List Char) : List Char := stripMarkersFuel l.length l

/-- `/\s*--\s*from\s*RunNote\s*$/i.test`, scanning from the end of the
string. -/
def endsWithMarkerB (s : List Char) : Bool :=
  match matchCI ('e' :: 't' :: 'o' :: 'N' :: 'n' :: 'u' :: 'R' :: [])
      (s.reverse.dropWhile isWsChar) with
  | none => false
  | some r2 =>
    match matchCI ('m' :: 'o' :: 'r' :: 'f' :: []) (r2.dropWhile isWsChar) with
    | none => false
    | some r3 =>
      match matchCI ('-' :: '-' :: []) (r3.dropWhile isWsChar) with
      | none => false
      | some _ => true

/-- `String.prototype.trimEnd`. -/
def trimEndChars (l : List Char) : List Char := (l.reverse.dropWhile isWsChar).reverse

/-- `String.prototype.trim`. -/
def jsTrimChars (l : List Char) : List Char := trimEndChars (l.dropWhile isWsChar)

/-- `split(/\n/)`. -/
def splitNl : List Char → List (List Char)
  | [] => [[]]
  | c :: rest =>
    if c = '\n' then [] :: splitNl rest
    else (c :: (splitNl rest).headD []) :: (splitNl rest).tail

/-- `Array.prototype.join("\n")`. -/
def joinNl : List (List Char) → List Char
  | [] => []
  | [l] => l
  | l :: ls => l ++ '\n' :: joinNl ls

/-- The marker text `--from RunNote` (the default `marker` parameter). -/
def markerText : List Char := ("--from RunNote").data

/-- The sanitised summary: collapsed to one line, trimmed, with embedded
marker text removed, trimmed again. -/
def runNoteSummaryLine (summary : List Char) : List Char :=
  jsTrimChars (stripMarkers (jsTrimChars (collapseNl summary)))

/-- The lines of the existing description that survive: trailing-whitespace
trimmed, nonempty, and not matching the marker pattern at their end. -/
def keptLines (desc : List Char) : List (List Char) :=
  ((splitNl desc).map trimEndChars).filter
    (fun l => !l.isEmpty && !endsWithMarkerB (jsTrimChars l))

/-- `applyRunNoteToDescription`: normalise line endings, build the canonical
RunNote line from the sanitised summary, keep all other non-marker lines, and
put the RunNote line on top followed by a blank line. -/
def applyRunNoteToDescription (existingDescription : Option (List Char))
    (summary : List Char) : List Char :=
  let desc := replaceCRLF (existingDescription.getD [])
  let runNoteLine := runNoteSummaryLine summary ++ ' ' :: markerText
  let kept := keptLines desc
  if kept.isEmpty then runNoteLine ++ ('\n' :: '\n' :: [])
  else runNoteLine ++ ('\n' :: '\n' :: joinNl kept)

/-- The no-CRLF pair relation. -/
def noCRLF (a b : Char) : Prop := ¬(a = '\r' ∧ b = '\n')

/-- `a` is unchanged by a shift of `p` wherever both indices are in range. -/
def shiftPeriod (a : List ℚ) (p : ℕ) : Prop :=
  ∀ t, t + p < a.length → a.getD (t + p) 0 = a.getD t 0

/-- Every entry of `a` equals the entry at its index modulo `p`. -/
def modPeriod (a : List ℚ) (p : ℕ) : Prop :=
  ∀ t < a.length, a.getD t 0 = a.getD (t % p) 0

/-- Claim C9 formalized at one input: `formatPace` returns `MM:SS` with
minutes `⌊pace/60⌋` and a zero-padded two-digit seconds field lying in
00–59. -/
def claimC9At (q : ℚ) : Prop :=
  ∃ s : ℤ, 0 ≤ s ∧ s ≤ 59 ∧
    formatPace q = toString ⌊q / 60⌋ ++ ":" ++ padStart2 (toString s) ∧
    (padStart2 (toString s)).length = 2

/-- A concrete activity with the aggregates of scenario A: 17714.6 m, 5930 s,
HR 130, all laps in pace zone 1. -/
def c3Activity : Activity := ⟨17714.6, 5930, 130, [⟨17714.6, 5930, 3, some 1⟩]⟩

/-- The literal reading of claim C10 at one input: the first output line is
the summary collapsed to a single line followed by the marker, no later
output line ends with the marker, and every nonempty line of the (CRLF
normalised) existing description that does not end with the marker reappears
unchanged among the output lines. -/
def claimC10At (d : Option (List Char)) (s : List Char) : Prop :=
  (splitNl (applyRunNoteToDescription d s)).headD [] =
    collapseNl s ++ ' ' :: markerText ∧
  (∀ l ∈ (splitNl (applyRunNoteToDescription d s)).tail,
    markerText.isSuffixOf l = false) ∧
  (∀ l ∈ splitNl (replaceCRLF (d.getD [])), l ≠ [] →
    markerText.isSuffixOf l = false →
    l ∈ splitNl (applyRunNoteToDescription d s))

section FoldMin

variable {α β : Type} [LinearOrder β] (f : α → β)

/-- `List.argmin` of a cons cell as a simple `foldl` that keeps the earlier
element on ties. -/
lemma foldl_argAux_some (l : List α) :
    ∀ a : α, l.foldl (List.argAux (fun b c => f b < f c)) (some a) =
      some (l.foldl (fun c b => if f b < f c then b else c) a) := by
  induction l with
  | nil => intro a; rfl
  | cons x xs ih =>
      intro a
      by_cases h : f x < f a <;>
        simp [List.foldl_cons, List.argAux, h, ih]

lemma argmin_cons_eq_foldl (a : α) (l : List α) :
    (a :: l).argmin f = some (l.foldl (fun c b => if f b < f c then b else c) a) := by
  rw [List.argmin, List.foldl_cons]
  have h0 : List.argAux (fun b c => f b < f c) none a = some a := rfl
  rw [h0, foldl_argAux_some]

/-- The source's `(closest, minDiff)` pair fold maintains `minDiff = f closest`
and computes the same winner as the simple fold. -/
lemma foldl_pair_min (l : List α) :
    ∀ a : α, l.foldl (fun p std => if f std < p.2 then (std, f std) else p) (a, f a) =
      (l.foldl (fun c b => if f b < f c then b else c) a,
       f (l.foldl (fun c b => if f b < f c then b else c) a)) := by
  induction l with
  | nil => intro a; rfl
  | cons x xs ih =>
      intro a
      by_cases h : f x < f a <;>
        simp [List.foldl_cons, h, ih]

end FoldMin



lemma pairfold_eq_nearestWinner (meters : ℚ) :
    ∀ (l : List ℚ) (a : ℚ),
      l.foldl (fun p std => if |meters - std| < p.2 then (std, |meters - std|) else p)
          (a, |meters - a|) =
        (nearestWinner meters a l, |meters - nearestWinner meters a l|) := by
  intro l
  induction l with
  | nil => intro a; rfl
  | cons x xs ih =>
      intro a
      by_cases h : |meters - x| < |meters - a| <;>
        simp [List.foldl_cons, nearestWinner, h, ih]

lemma argmin_eq_nearestWinner (meters : ℚ) (a : ℚ) (l : List ℚ) :
    (a :: l).argmin (fun s => |meters - s|) = some (nearestWinner meters a l) := by
  rw [argmin_cons_eq_foldl]
  rfl

lemma pairfold_standards (meters : ℚ) :
    standardsList.foldl
        (fun p std => if |meters - std| < p.2 then (std, |meters - std|) else p)
        (100, |meters - 100|) =
      (nearestWinner meters 100 tailStandards,
       |meters - nearestWinner meters 100 tailStandards|) := by
  have h1 : standardsList = 100 :: tailStandards := rfl
  rw [h1, List.foldl_cons, ite_self]
  exact pairfold_eq_nearestWinner meters tailStandards 100

lemma argmin_standards (meters : ℚ) :
    standardsList.argmin (fun s => |meters - s|) =
      some (nearestWinner meters 100 tailStandards) := by
  have h1 : standardsList = 100 :: tailStandards := rfl
  rw [h1]
  exact argmin_eq_nearestWinner meters 100 tailStandards

/-!  `findRepeatingPattern` (PatternDetector) -/

lemma chunkOK_nil (pattern : List ℚ) (len : ℕ) : chunkOK pattern len [] := by
  constructor
  · intro i hi
    simp at hi
  · intro h
    simp at h

/-- Dropping one matching full chunk preserves the chunk condition. -/
lemma chunkOK_drop_iff (pattern : List ℚ) (len : ℕ) (hlen : 0 < len) (rest : List ℚ)
    (hle : len ≤ rest.length) (htake : rest.take len = pattern) :
    chunkOK pattern len rest ↔ chunkOK pattern len (rest.drop len) := by
  have hlend : (rest.drop len).length = rest.length - len := List.length_drop len rest
  have hdiv : rest.length / len = (rest.length - len) / len + 1 :=
    Nat.div_eq_sub_div hlen hle
  have hmod : rest.length % len = (rest.length - len) % len :=
    (Nat.mod_eq_sub_mod hle)
  have hdropdrop : ∀ j : ℕ, (rest.drop len).drop (j * len) = rest.drop ((j + 1) * len) := by
    intro j
    rw [List.drop_drop]
    ring_nf
  constructor
  · rintro ⟨h1, h2⟩
    refine ⟨?_, ?_⟩
    · intro i hi
      rw [hlend] at hi
      rw [hdropdrop]
      exact h1 (i + 1) (by omega)
    · intro hne
      rw [hlend] at hne ⊢
      rw [hdropdrop, ← hdiv, ← hmod]
      exact h2 (by omega)
  · rintro ⟨h1, h2⟩
    rw [hlend] at h1 h2
    refine ⟨?_, ?_⟩
    · intro i hi
      match i with
      | 0 =>
          simpa using htake
      | j + 1 =>
          rw [← hdropdrop]
          exact h1 j (by omega)
    · intro hne
      rw [hdiv, ← hdropdrop, hmod]
      exact h2 (by omega)

/-- Correctness of the fuelled chunk walk: with enough fuel it succeeds
exactly on lists satisfying the chunk condition, returning the number of full
chunks. -/
lemma checkChunksFuel_correct (pattern : List ℚ) (len : ℕ) (hlen : 0 < len) :
    ∀ (fuel : ℕ) (rest : List ℚ), rest.length ≤ fuel → ∀ fullSets : ℕ,
      checkChunksFuel pattern len fuel rest fullSets =
        if chunkOK pattern len rest then some (fullSets + rest.length / len) else none := by
  intro fuel
  induction fuel with
  | zero =>
      intro rest hle fullSets
      have hnil : rest = [] := List.length_eq_zero.mp (Nat.le_zero.mp hle)
      subst hnil
      simp [checkChunksFuel, chunkOK_nil]
  | succ n ih =>
      intro rest hle fullSets
      cases rest with
      | nil => simp [checkChunksFuel, chunkOK_nil]
      | cons c rest' =>
        set rest := c :: rest' with hrest
        have hr : rest ≠ [] := by simp [hrest]
        rw [checkChunksFuel]
        by_cases hfull : len ≤ rest.length
        · rw [if_pos hfull]
          by_cases htake : rest.take len = pattern
          · rw [if_pos htake]
            have hrec : (rest.drop len).length ≤ n := by
              have h1 := List.length_drop len rest
              have h2 : 0 < rest.length := by simp [hrest]
              omega
            rw [ih (rest.drop len) hrec (fullSets + 1)]
            have hiff := chunkOK_drop_iff pattern len hlen rest hfull htake
            have hdiv : rest.length / len = (rest.length - len) / len + 1 :=
              Nat.div_eq_sub_div hlen hfull
            by_cases hok : chunkOK pattern len rest
            · rw [if_pos (hiff.mp hok), if_pos hok]
              congr 1
              rw [List.length_drop, hdiv]
              ring
            · rw [if_neg (fun h => hok (hiff.mpr h)), if_neg hok]
          · rw [if_neg htake]
            have hnot : ¬ chunkOK pattern len rest := by
              intro h
              apply htake
              have h0 := h.1 0 (by
                have : 1 ≤ rest.length / len := (Nat.one_le_div_iff hlen).mpr hfull
                omega)
              simpa using h0
            rw [if_neg hnot]
        · rw [if_neg hfull]
          push_neg at hfull
          have hdiv0 : rest.length / len = 0 := Nat.div_eq_of_lt hfull
          have hmodr : rest.length % len = rest.length := Nat.mod_eq_of_lt hfull
          have hiff : chunkOK pattern len rest ↔ rest = pattern.take rest.length := by
            unfold chunkOK
            rw [hdiv0, hmodr]
            constructor
            · rintro ⟨h1, h2⟩
              have := h2 (by
                intro h0
                exact hr (List.length_eq_zero.mp h0))
              simpa using this
            · intro h
              refine ⟨fun i hi => absurd hi (by omega), fun _ => by simpa using h⟩
          by_cases heq : rest = pattern.take rest.length
          · rw [if_pos heq, if_pos (hiff.mpr heq), hdiv0, Nat.add_zero]
          · rw [if_neg heq, if_neg (fun h => heq (hiff.mp h))]

/-- Correctness of the chunk walk. -/
lemma checkChunks_correct (pattern : List ℚ) (len : ℕ) (hlen : 0 < len) :
    ∀ (rest : List ℚ) (fullSets : ℕ),
      checkChunks pattern len rest fullSets =
        if chunkOK pattern len rest then some (fullSets + rest.length / len) else none :=
  fun rest fullSets =>
    checkChunksFuel_correct pattern len hlen rest.length rest le_rfl fullSets

/-- If `f` agrees with `if p then some ∘ g else none` on a list, then
`findSome?` is `find?` followed by `g`. -/
lemma findSome?_eq_find?_map {α β : Type} (l : List α) (p : α → Bool) (g : α → β)
    (f : α → Option β) (h : ∀ x ∈ l, f x = if p x then some (g x) else none) :
    l.findSome? f = (l.find? p).map g := by
  induction l with
  | nil => rfl
  | cons a t ih =>
      have ha := h a (List.mem_cons_self a t)
      by_cases hp : p a
      · simp [List.findSome?_cons, ha, hp]
      · simp [List.findSome?_cons, ha, hp,
          ih (fun x hx => h x (List.mem_cons_of_mem a hx))]

lemma unitValid_iff_chunkOK (arr : List ℚ) (len : ℕ) :
    unitValid arr len ↔ 2 ≤ arr.length / len ∧ chunkOK (arr.take len) len arr := by
  unfold unitValid chunkOK
  tauto

/-- `findRepeatingPattern` coincides with its specification form: the first
valid unit length wins, and the set count is the number of full chunks. -/
lemma findRepeatingPattern_eq_spec (arr : List ℚ) :
    findRepeatingPattern arr = findRepeatingPatternSpec arr := by
  unfold findRepeatingPattern findRepeatingPatternSpec
  rw [← findSome?_eq_find?_map (List.range' 1 (arr.length / 2))
      (fun len => decide (unitValid arr len)) (fun len => (arr.take len, arr.length / len))]
  intro len hmem
  have hrange : 1 ≤ len ∧ len < 1 + arr.length / 2 := List.mem_range'_1.mp hmem
  have hlenpos : 0 < len := hrange.1
  rw [checkChunks_correct (arr.take len) len hlenpos arr 0]
  by_cases hok : chunkOK (arr.take len) len arr
  · rw [if_pos hok]
    by_cases h2 : 2 ≤ arr.length / len
    · have : unitValid arr len := (unitValid_iff_chunkOK arr len).mpr ⟨h2, hok⟩
      simp [this, h2]
    · have : ¬ unitValid arr len := fun h =>
        h2 ((unitValid_iff_chunkOK arr len).mp h).1
      simp [this, h2]
  · rw [if_neg hok]
    have : ¬ unitValid arr len := fun h =>
      hok ((unitValid_iff_chunkOK arr len).mp h).2
    simp [this]

/-- The implementation agrees with the specification form of the rounder on
every input. -/
lemma roundToStandardDistance_eq_spec (meters : ℚ) :
    roundToStandardDistance meters = roundToStandardDistanceSpec meters := by
  by_cases h0 : meters = 0
  · subst h0
    simp only [roundToStandardDistance, roundToStandardDistanceSpec]
    norm_num [jsRound]
  · simp only [roundToStandardDistance, roundToStandardDistanceSpec, if_neg h0]
    rw [pairfold_standards, argmin_standards]
    simp [h0]

/-!  `applyRunNoteToDescription` (`activityFormatter.ts`)

Text is modelled as `List Char`.  The fixed regular expressions of the source
are modelled by specialised scanning functions:

* `/\r\n/g → "\n"` — `replaceCRLF`;
* `/\s*\n+\s*/g → " "` on the summary — `collapseNl`: a maximal whitespace
  run matches the pattern exactly when it contains a newline, and the
  leftmost-greedy match then covers the whole run;
* `/\s*--\s*from\s*RunNote\s*/gi → ""` — `stripMarkers`: at each position the
  pattern matches by skipping the maximal whitespace run before each literal,
  because `-`, `f` and `R` are not whitespace characters;
* `/\s*--\s*from\s*RunNote\s*$/i.test` — `endsWithMarkerB`, scanning from the
  end for the same reason;
* `split(/\n/)` — `splitNl`; `Array.join("\n")` — `joinNl`.
-/

/-!  Lemmas about the description machinery -/

lemma not_nl_collapseNlFuel : ∀ (fuel : ℕ) (l : List Char), '\n' ∉ collapseNlFuel fuel l := by
  intro fuel
  induction fuel with
  | zero =>
      intro l
      cases l <;> simp [collapseNlFuel]
  | succ fuel ih =>
      intro l
      cases l with
      | nil => simp [collapseNlFuel]
      | cons c rest =>
          rw [collapseNlFuel]
          by_cases hw : isWsChar c
          · rw [if_pos hw]
            intro hmem
            rw [List.mem_append] at hmem
            rcases hmem with hm | hm
            · by_cases hc : (c :: rest.takeWhile isWsChar).contains '\n'
              · rw [if_pos hc] at hm
                simp at hm
              · rw [if_neg hc] at hm
                exact hc (List.elem_iff.mpr hm)
            · exact ih _ hm
          · rw [if_neg hw]
            intro hmem
            rcases List.mem_cons.mp hmem with rfl | hm
            · exact hw rfl
            · exact ih _ hm

lemma not_nl_collapseNl (l : List Char) : '\n' ∉ collapseNl l :=
  not_nl_collapseNlFuel l.length l

lemma matchCI_sublist : ∀ (pat l l' : List Char), matchCI pat l = some l' → List.Sublist l' l := by
  intro pat
  induction pat with
  | nil =>
      intro l l' h
      injection h with h
      subst h
      exact List.Sublist.refl l
  | cons pc pr ih =>
      intro l l' h
      cases l with
      | nil => exact absurd h (by simp [matchCI])
      | cons c cr =>
          rw [matchCI] at h
          by_cases he : c.toLower = pc.toLower
          · rw [if_pos he] at h
            exact (ih cr l' h).cons c
          · rw [if_neg he] at h
            exact absurd h (by simp)

lemma matchMarker_sublist (l l' : List Char) (h : matchMarker l = some l') : List.Sublist l' l := by
  unfold matchMarker at h
  split at h
  · exact absurd h (by simp)
  · rename_i l2 h2
    split at h
    · exact absurd h (by simp)
    · rename_i l3 h3
      split at h
      · exact absurd h (by simp)
      · rename_i l4 h4
        injection h with h
        subst h
        refine List.Sublist.trans (List.dropWhile_sublist _) ?_
        refine List.Sublist.trans (matchCI_sublist _ _ _ h4) ?_
        refine List.Sublist.trans (List.dropWhile_sublist _) ?_
        refine List.Sublist.trans (matchCI_sublist _ _ _ h3) ?_
        refine List.Sublist.trans (List.dropWhile_sublist _) ?_
        refine List.Sublist.trans (matchCI_sublist _ _ _ h2) ?_
        exact List.dropWhile_sublist _

lemma mem_of_mem_stripMarkersFuel :
    ∀ (fuel : ℕ) (l : List Char) (x : Char), x ∈ stripMarkersFuel fuel l → x ∈ l := by
  intro fuel
  induction fuel with
  | zero =>
      intro l x hx
      cases l <;> simp [stripMarkersFuel] at hx
  | succ fuel ih =>
      intro l x hx
      cases l with
      | nil => simp [stripMarkersFuel] at hx
      | cons c rest =>
          rw [stripMarkersFuel] at hx
          cases hm : matchMarker (c :: rest) with
          | some l5 =>
              rw [hm] at hx
              exact (matchMarker_sublist _ _ hm).subset (ih l5 x hx)
          | none =>
              rw [hm] at hx
              rcases List.mem_cons.mp hx with rfl | hx'
              · exact List.mem_cons_self _ _
              · exact List.mem_cons_of_mem _ (ih rest x hx')

lemma mem_of_mem_stripMarkers (l : List Char) (x : Char) (h : x ∈ stripMarkers l) : x ∈ l :=
  mem_of_mem_stripMarkersFuel l.length l x h

lemma mem_of_mem_trimEndChars (l : List Char) (x : Char) (h : x ∈ trimEndChars l) : x ∈ l := by
  unfold trimEndChars at h
  rw [List.mem_reverse] at h
  have := (List.dropWhile_sublist (l := l.reverse) isWsChar).subset h
  rwa [List.mem_reverse] at this

lemma mem_of_mem_jsTrimChars (l : List Char) (x : Char) (h : x ∈ jsTrimChars l) : x ∈ l := by
  unfold jsTrimChars at h
  exact (List.dropWhile_sublist isWsChar).subset (mem_of_mem_trimEndChars _ _ h)

lemma not_nl_runNoteSummaryLine (s : List Char) : '\n' ∉ runNoteSummaryLine s := by
  intro h
  exact not_nl_collapseNl s
    (mem_of_mem_jsTrimChars _ _
      (mem_of_mem_stripMarkers _ _ (mem_of_mem_jsTrimChars _ _ h)))

lemma not_nl_runNoteLine (s : List Char) :
    '\n' ∉ runNoteSummaryLine s ++ ' ' :: markerText := by
  intro h
  rcases List.mem_append.mp h with h | h
  · exact not_nl_runNoteSummaryLine s h
  · revert h
    decide

lemma splitNl_ne_nil (l : List Char) : splitNl l ≠ [] := by
  cases l with
  | nil => simp [splitNl]
  | cons c rest =>
      rw [splitNl]
      by_cases h : c = '\n' <;> simp [h]

lemma splitNl_of_not_nl (l : List Char) (h : '\n' ∉ l) : splitNl l = [l] := by
  induction l with
  | nil => rfl
  | cons c rest ih =>
      have hc : ¬ c = '\n' := fun hc => h (hc ▸ List.mem_cons_self _ _)
      rw [splitNl, if_neg hc, ih (fun hm => h (List.mem_cons_of_mem _ hm))]
      rfl

lemma splitNl_append_nl (a rest : List Char) (ha : '\n' ∉ a) :
    splitNl (a ++ '\n' :: rest) = a :: splitNl rest := by
  induction a with
  | nil =>
      rw [List.nil_append, splitNl, if_pos rfl]
  | cons c a ih =>
      have hc : ¬ c = '\n' := fun hc => ha (hc ▸ List.mem_cons_self _ _)
      rw [List.cons_append, splitNl, if_neg hc,
        ih (fun hm => ha (List.mem_cons_of_mem _ hm))]
      rfl

lemma splitNl_joinNl : ∀ (ks : List (List Char)), ks ≠ [] →
    (∀ l ∈ ks, '\n' ∉ l) → splitNl (joinNl ks) = ks := by
  intro ks
  induction ks with
  | nil => intro h; exact absurd rfl h
  | cons x ks ih =>
      intro _ hnl
      cases ks with
      | nil => exact splitNl_of_not_nl x (hnl x (List.mem_cons_self _ _))
      | cons y ks' =>
          have hrec := ih (List.cons_ne_nil y ks')
            (fun l hl => hnl l (List.mem_cons_of_mem _ hl))
          rw [joinNl, splitNl_append_nl _ _ (hnl x (List.mem_cons_self _ _)), hrec]
          exact fun h => absurd h (List.cons_ne_nil y ks')

lemma mem_splitNl_not_nl : ∀ (d : List Char), ∀ l ∈ splitNl d, '\n' ∉ l := by
  intro d
  induction d with
  | nil =>
      intro l hl
      simp [splitNl] at hl
      simp [hl]
  | cons c rest ih =>
      intro l hl
      obtain ⟨h0, t0, hsp⟩ : ∃ h0 t0, splitNl rest = h0 :: t0 := by
        rcases hsp : splitNl rest with _ | ⟨h0, t0⟩
        · exact absurd hsp (splitNl_ne_nil rest)
        · exact ⟨h0, t0, rfl⟩
      have hh0 : '\n' ∉ h0 := ih h0 (hsp ▸ List.mem_cons_self _ _)
      have hht : ∀ l' ∈ t0, '\n' ∉ l' := fun l' hl' =>
        ih l' (hsp ▸ List.mem_cons_of_mem _ hl')
      rw [splitNl] at hl
      by_cases hc : c = '\n'
      · rw [if_pos hc] at hl
        rcases List.mem_cons.mp hl with rfl | hl'
        · simp
        · exact ih l hl'
      · rw [if_neg hc, hsp] at hl
        simp only [List.headD_cons, List.tail_cons] at hl
        rcases List.mem_cons.mp hl with rfl | hl'
        · intro hmem
          rcases List.mem_cons.mp hmem with heq | hmem'
          · exact hc heq.symm
          · exact hh0 hmem'
        · exact hht l hl'

lemma keptLines_no_nl (desc : List Char) : ∀ l ∈ keptLines desc, '\n' ∉ l := by
  intro l hl
  unfold keptLines at hl
  obtain ⟨hm, _⟩ := List.mem_filter.mp hl
  obtain ⟨l0, hl0, rfl⟩ := List.mem_map.mp hm
  intro hmem
  exact mem_splitNl_not_nl desc l0 hl0 (mem_of_mem_trimEndChars _ _ hmem)

lemma apply_eq_join (d : Option (List Char)) (s : List Char) :
    applyRunNoteToDescription d s =
      (runNoteSummaryLine s ++ ' ' :: markerText) ++
        '\n' :: '\n' :: joinNl (keptLines (replaceCRLF (d.getD []))) := by
  unfold applyRunNoteToDescription
  by_cases h : (keptLines (replaceCRLF (d.getD []))).isEmpty
  · rw [if_pos h, List.isEmpty_iff.mp h]
    rfl
  · rw [if_neg h]

lemma splitNl_apply (d : Option (List Char)) (s : List Char) :
    splitNl (applyRunNoteToDescription d s) =
      (runNoteSummaryLine s ++ ' ' :: markerText) :: [] ::
        (if (keptLines (replaceCRLF (d.getD []))).isEmpty then [[]]
         else keptLines (replaceCRLF (d.getD []))) := by
  rw [apply_eq_join, splitNl_append_nl _ _ (not_nl_runNoteLine s), splitNl, if_pos rfl]
  by_cases h : (keptLines (replaceCRLF (d.getD []))).isEmpty
  · rw [if_pos h, List.isEmpty_iff.mp h]
    rfl
  · rw [if_neg h,
      splitNl_joinNl _ (fun hc => h (List.isEmpty_iff.mpr hc)) (keptLines_no_nl _)]

lemma reverse_append_marker (pre : List Char) :
    (pre ++ markerText).reverse =
      'e' :: 't' :: 'o' :: 'N' :: 'n' :: 'u' :: 'R' :: ' ' :: 'm' :: 'o' :: 'r' :: 'f' ::
        '-' :: '-' :: pre.reverse := by
  rw [List.reverse_append]
  rfl

/-- Any string ending in the literal marker passes the case-insensitive
end-of-line marker test. -/
lemma endsWithMarkerB_append_marker (pre : List Char) :
    endsWithMarkerB (pre ++ markerText) = true := by
  unfold endsWithMarkerB
  rw [reverse_append_marker]
  rfl

lemma dropWhile_append_marker (pre : List Char) :
    ∃ pre', (pre ++ markerText).dropWhile isWsChar = pre' ++ markerText := by
  induction pre with
  | nil => exact ⟨[], rfl⟩
  | cons c pre ih =>
      by_cases h : isWsChar c
      · rw [List.cons_append, List.dropWhile_cons, if_pos h]
        exact ih
      · exact ⟨c :: pre, by rw [List.cons_append, List.dropWhile_cons, if_neg h]⟩

lemma trimEnd_append_marker (pre : List Char) :
    trimEndChars (pre ++ markerText) = pre ++ markerText := by
  unfold trimEndChars
  rw [reverse_append_marker, List.dropWhile_cons]
  rw [if_neg (by decide)]
  rw [← reverse_append_marker, List.reverse_reverse]

lemma endsWithMarkerB_jsTrim_append_marker (pre : List Char) :
    endsWithMarkerB (jsTrimChars (pre ++ markerText)) = true := by
  obtain ⟨pre', h⟩ := dropWhile_append_marker pre
  unfold jsTrimChars
  rw [h, trimEnd_append_marker]
  exact endsWithMarkerB_append_marker pre'

lemma dropWhile_idem (p : Char → Bool) (l : List Char) :
    (l.dropWhile p).dropWhile p = l.dropWhile p := by
  have hh := List.head?_dropWhile_not p l
  cases hd : (l.dropWhile p) with
  | nil => rfl
  | cons c t =>
      rw [hd] at hh
      simp only [List.head?_cons] at hh
      rw [List.dropWhile_cons, if_neg (by rw [hh]; exact Bool.false_ne_true)]

lemma trimEnd_idem (l : List Char) : trimEndChars (trimEndChars l) = trimEndChars l := by
  unfold trimEndChars
  rw [List.reverse_reverse, dropWhile_idem]

lemma trimEnd_append_space_marker (x : List Char) :
    trimEndChars (x ++ ' ' :: markerText) = x ++ ' ' :: markerText := by
  have h : x ++ ' ' :: markerText = (x ++ [' ']) ++ markerText := by
    rw [List.append_assoc]
    rfl
  rw [h, trimEnd_append_marker]

lemma getLast?_trimEnd_not_ws (l : List Char) :
    ∀ c, (trimEndChars l).getLast? = some c → isWsChar c = false := by
  intro c hc
  unfold trimEndChars at hc
  rw [List.getLast?_reverse] at hc
  have hh := List.head?_dropWhile_not isWsChar l.reverse
  rw [hc] at hh
  exact hh

/-!  Absence of `"\r\n"` in the output, via `Chain'`. -/

lemma chain'_noCRLF_of_not_nl (l : List Char) (h : '\n' ∉ l) :
    List.Chain' noCRLF l := by
  induction l with
  | nil => exact List.chain'_nil
  | cons c rest ih =>
      apply List.chain'_cons'.mpr
      refine ⟨?_, ih (fun hm => h (List.mem_cons_of_mem _ hm))⟩
      intro y hy hcon
      exact h (List.mem_cons_of_mem _
        (hcon.2 ▸ List.mem_of_mem_head? hy))

lemma chain'_noCRLF_joinNl (ks : List (List Char))
    (h : ∀ l ∈ ks, '\n' ∉ l ∧ ∀ c, l.getLast? = some c → isWsChar c = false) :
    List.Chain' noCRLF (joinNl ks) := by
  induction ks with
  | nil => exact List.chain'_nil
  | cons x ks ih =>
      cases ks with
      | nil => exact chain'_noCRLF_of_not_nl x (h x (List.mem_cons_self _ _)).1
      | cons y ks' =>
          rw [joinNl]
          apply List.chain'_append.mpr
          refine ⟨chain'_noCRLF_of_not_nl x (h x (List.mem_cons_self _ _)).1, ?_, ?_⟩
          · apply List.chain'_cons'.mpr
            refine ⟨fun y' _ hcon => absurd hcon.1 (by decide), ?_⟩
            exact ih (fun l hl => h l (List.mem_cons_of_mem _ hl))
          · intro a ha y' hy' hcon
            have := (h x (List.mem_cons_self _ _)).2 a ha
            rw [hcon.1] at this
            exact absurd this (by decide)
          exact fun hceq => absurd hceq (List.cons_ne_nil y ks')

lemma replaceCRLF_of_chain' :
    ∀ (l : List Char), List.Chain' noCRLF l → replaceCRLF l = l := by
  suffices H : ∀ (n : ℕ) (l : List Char), l.length ≤ n →
      List.Chain' noCRLF l → replaceCRLF l = l by
    exact fun l => H l.length l le_rfl
  intro n
  induction n with
  | zero =>
      intro l hle _
      have : l = [] := List.length_eq_zero.mp (Nat.le_zero.mp hle)
      subst this
      rfl
  | succ n ih =>
      intro l hle hch
      match l with
      | [] => rfl
      | [c] => rfl
      | c1 :: c2 :: rest =>
          obtain ⟨hR, hch'⟩ := List.chain'_cons.mp hch
          rw [replaceCRLF, if_neg hR]
          have := ih (c2 :: rest) (by simp at hle ⊢; omega) hch'
          rw [this]

lemma chain'_noCRLF_apply (d : Option (List Char)) (s : List Char) :
    List.Chain' noCRLF (applyRunNoteToDescription d s) := by
  rw [apply_eq_join]
  apply List.chain'_append.mpr
  refine ⟨chain'_noCRLF_of_not_nl _ (not_nl_runNoteLine s), ?_, ?_⟩
  · apply List.chain'_cons'.mpr
    refine ⟨fun y _ hcon => absurd hcon.1 (by decide), ?_⟩
    apply List.chain'_cons'.mpr
    refine ⟨fun y _ hcon => absurd hcon.1 (by decide), ?_⟩
    apply chain'_noCRLF_joinNl
    intro l hl
    refine ⟨keptLines_no_nl _ l hl, ?_⟩
    unfold keptLines at hl
    obtain ⟨hm, _⟩ := List.mem_filter.mp hl
    obtain ⟨l0, _, rfl⟩ := List.mem_map.mp hm
    exact fun c hc => getLast?_trimEnd_not_ws l0 c hc
  · intro x hx y hy hcon
    rw [List.getLast?_append_of_ne_nil _ (List.cons_ne_nil _ _)] at hx
    have hlast : (' ' :: markerText).getLast? = some 'e' := by decide
    rw [hlast] at hx
    simp only [Option.mem_def, Option.some.injEq] at hx
    rw [← hx] at hcon
    exact absurd hcon.1 (by decide)

lemma replaceCRLF_apply (d : Option (List Char)) (s : List Char) :
    replaceCRLF (applyRunNoteToDescription d s) = applyRunNoteToDescription d s :=
  replaceCRLF_of_chain' _ (chain'_noCRLF_apply d s)

lemma trimEnd_mem_keptLines (desc : List Char) (l : List Char) (hl : l ∈ keptLines desc) :
    trimEndChars l = l := by
  unfold keptLines at hl
  obtain ⟨hm, _⟩ := List.mem_filter.mp hl
  obtain ⟨l0, _, rfl⟩ := List.mem_map.mp hm
  exact trimEnd_idem l0

lemma mem_keptLines_pred (desc : List Char) (l : List Char) (hl : l ∈ keptLines desc) :
    (!l.isEmpty && !endsWithMarkerB (jsTrimChars l)) = true := by
  unfold keptLines at hl
  exact (List.mem_filter.mp hl).2

/-- Reapplying the formatter recovers exactly the kept lines of the original
description: the injected summary line and the blank line are filtered out
again (the summary line ends in the marker), and every kept line is a
fixed point of trimming and still passes the filter. -/
lemma keptLines_apply (d : Option (List Char)) (s : List Char) :
    keptLines (applyRunNoteToDescription d s) = keptLines (replaceCRLF (d.getD [])) := by
  have hline1 : trimEndChars (runNoteSummaryLine s ++ ' ' :: markerText)
      = runNoteSummaryLine s ++ ' ' :: markerText := trimEnd_append_space_marker _
  have hend : endsWithMarkerB (jsTrimChars (runNoteSummaryLine s ++ ' ' :: markerText))
      = true := by
    have h : runNoteSummaryLine s ++ ' ' :: markerText
        = (runNoteSummaryLine s ++ [' ']) ++ markerText := by
      rw [List.append_assoc]
      rfl
    rw [h]
    exact endsWithMarkerB_jsTrim_append_marker _
  conv_lhs => unfold keptLines
  rw [splitNl_apply, List.map_cons, List.map_cons, hline1]
  rw [List.filter_cons_of_neg (by simp [hend]),
    List.filter_cons_of_neg (by simp [trimEndChars])]
  by_cases h : (keptLines (replaceCRLF (d.getD []))).isEmpty
  · rw [if_pos h, List.isEmpty_iff.mp h]
    rfl
  · rw [if_neg h]
    have hmap : (keptLines (replaceCRLF (d.getD []))).map trimEndChars
        = keptLines (replaceCRLF (d.getD [])) := by
      conv_rhs => rw [show keptLines (replaceCRLF (d.getD []))
        = (keptLines (replaceCRLF (d.getD []))).map id from
          (List.map_id _).symm]
      exact List.map_congr_left (fun a ha => trimEnd_mem_keptLines _ a ha)
    rw [hmap]
    exact List.filter_eq_self.mpr (fun a ha => mem_keptLines_pred _ a ha)

/-- Applying the formatter to its own output (with the same summary)
reproduces that output. -/
lemma apply_idem (d : Option (List Char)) (s : List Char) :
    applyRunNoteToDescription (some (applyRunNoteToDescription d s)) s =
      applyRunNoteToDescription d s := by
  rw [apply_eq_join (some (applyRunNoteToDescription d s)) s]
  simp only [Option.getD_some]
  rw [replaceCRLF_apply, keptLines_apply]
  exact (apply_eq_join d s).symm

lemma mem_keptLines_not_marker_suffix (desc l : List Char) (hl : l ∈ keptLines desc) :
    markerText.isSuffixOf l = false := by
  by_contra h
  rw [Bool.not_eq_false] at h
  obtain ⟨pre, rfl⟩ := List.isSuffixOf_iff_suffix.mp h
  have hp := mem_keptLines_pred desc _ hl
  rw [endsWithMarkerB_jsTrim_append_marker] at hp
  simp at hp

/-!  Claim theorems -/

/-- C1: `findRepeatingPattern`, applied to any list of numbers of length `n`,
tries unit lengths from 1 to `⌊n/2⌋` in increasing order with the unit being
the first `len` elements, and returns the first (shortest) unit such that
every full `len`-sized chunk equals the unit and at least two full repetitions
occur, with `sets` the number of full repetitions; a final short chunk is
accepted only as an initial segment of the unit and is never counted; if no
unit length qualifies the result is `none`. -/
theorem C1_findRepeatingPattern_matches_spec :
    ∀ arr : List ℚ, findRepeatingPattern arr = findRepeatingPatternSpec arr :=
  findRepeatingPattern_eq_spec

/-- C2: on the 33 interior laps of the activity-16445002078 fixture (eight
200 m fast / 200 m slow pairs, an 800 m between-set recovery, eight more
pairs), `calculateRepetitionStructure` returns 2 sets of 8 × 200 m with 200 m
recoveries and an 800 m between-set recovery. -/
theorem C2_fixture_repetition_structure :
    calculateRepetitionStructure ((activity16445002078_laps.drop 1).dropLast) =
      .ok { sets := 2, reps_per_set := 8, work_distance_meters := .scalar 200,
            recovery_distance_meters := .scalar 200,
            between_set_recovery_distance_meters := 800 } := by
  with_unfolding_all decide

/-- C4: for nonnegative input the distance rounder agrees with the
specification reference (nearest ladder value, earliest on ties; within 15
percent return it, else nearest multiple of 100; `round 0 = 0`), and takes the
claimed values at 0, 205, 390, 550 and 700. -/
theorem C4_roundToStandardDistance_spec :
    (∀ meters : ℚ, 0 ≤ meters →
      roundToStandardDistance meters = roundToStandardDistanceSpec meters) ∧
    roundToStandardDistance 0 = 0 ∧
    roundToStandardDistance 205 = 200 ∧
    roundToStandardDistance 390 = 400 ∧
    roundToStandardDistance 550 = 600 ∧
    roundToStandardDistance 700 = 600 := by
  refine ⟨fun meters _ => roundToStandardDistance_eq_spec meters, ?_, ?_, ?_, ?_, ?_⟩ <;>
    with_unfolding_all decide

/-- Witness for C4 at `meters = 205`. -/
theorem C4_roundToStandardDistance_spec_witness :
    roundToStandardDistance 205 = roundToStandardDistanceSpec 205 :=
  C4_roundToStandardDistance_spec.1 205 (by norm_num)

/-- C6: `calculateRepetitionStructure` raises an error on an empty lap list
and on any lap list with no qualifying work lap (faster than 4.3 m/s and
180–600 m), instead of returning a defaulted result. -/
theorem C6_no_work_laps_is_error :
    ∀ laps : List SpeedLap,
      (laps = [] ∨ ∀ lap ∈ laps,
        ¬((4.3 : ℚ) < lap.average_speed ∧ (180 : ℚ) ≤ lap.distance ∧ lap.distance ≤ 600)) →
      ∃ msg, calculateRepetitionStructure laps = .error msg := by
  intro laps h
  by_cases hemp : laps.isEmpty
  · refine ⟨"calculateRepetitionStructure: No laps provided", ?_⟩
    unfold calculateRepetitionStructure
    rw [if_pos hemp]
  · rcases h with h | h
    · subst h
      simp at hemp
    · have hwork : ((List.range laps.length).filter (fun i => isWorkLap (lapAt laps i))) = [] := by
        rw [List.filter_eq_nil_iff]
        intro i hi
        have hi' : i < laps.length := List.mem_range.mp hi
        have hmem : lapAt laps i ∈ laps := by
          unfold lapAt
          rw [List.getD_eq_getElem laps default hi']
          exact List.getElem_mem hi'
        have hnot := h _ hmem
        unfold isWorkLap
        simp only [Bool.and_eq_true, decide_eq_true_eq, not_and]
        tauto
      refine ⟨"calculateRepetitionStructure: No work laps found. This does not appear to be a repetition workout. Work laps must be 180-600m and >4.3 m/s.", ?_⟩
      simp only [calculateRepetitionStructure, hwork]
      rw [if_neg hemp]
      simp

/-- Witness for C6 on a single slow lap. -/
theorem C6_no_work_laps_is_error_witness :
    ∃ msg, calculateRepetitionStructure [⟨200, 70, 2.9⟩] = .error msg :=
  C6_no_work_laps_is_error [⟨200, 70, 2.9⟩]
    (Or.inr (by intro lap hmem; fin_cases hmem; with_unfolding_all decide))

/-- C7 counterexample: `calculateRunMetrics` with zero distance does not fail;
it returns a metrics record whose pace is `Infinity` (the claim asserts it
fails with an explicit division error instead). -/
theorem C7_zero_distance_returns_infinity :
    calculateRunMetrics ⟨0, 600, 130⟩ =
      { distance_miles := 0, pace_seconds_per_mile := .posInf, average_heartrate := 130 } ∧
    (calculateRunMetrics ⟨0, 600, 130⟩).pace_seconds_per_mile = JsNumber.posInf := by
  constructor <;> with_unfolding_all decide

/-- C7 (amended): for positive distance `calculateRunMetrics` computes
`miles = meters / 1609.344`, `pace = seconds / miles` and the rounded heart
rate; for zero distance it does not fail but returns an `Infinity` pace (see
the counterexample). -/
theorem C7_runMetrics_formulas :
    ∀ d t hr : ℚ, 0 < d →
      calculateRunMetrics ⟨d, t, hr⟩ =
        { distance_miles := d / 1609.344
          pace_seconds_per_mile := .num (t / (d / 1609.344))
          average_heartrate := (jsRound hr : ℚ) } := by
  intro d t hr hd
  have h1 : d / 1609.344 ≠ 0 := by positivity
  unfold calculateRunMetrics jsDiv
  simp [h1]

/-- Witness for C7 at one mile in 600 seconds. -/
theorem C7_runMetrics_formulas_witness :
    calculateRunMetrics ⟨1609.344, 600, 130.4⟩ =
      { distance_miles := 1609.344 / 1609.344
        pace_seconds_per_mile := .num (600 / (1609.344 / 1609.344))
        average_heartrate := (jsRound (130.4 : ℚ) : ℚ) } :=
  C7_runMetrics_formulas 1609.344 600 130.4 (by norm_num)

/-- The continuous-tempo branch of the summary formatter. -/
lemma formatWorkoutSummary_tempo_continuous (m : BaseWorkoutMetrics) :
    formatWorkoutSummary ⟨.T, some .continuous, some m, none, none⟩ =
      "T " ++ (if 10 ≤ m.distance_miles then toString (jsRound m.distance_miles) ++ " mi"
               else jsToFixed1 m.distance_miles ++ " mi") ++ " @ avg " ++
        formatPaceJs m.pace_seconds_per_mile ++ "/mi" := by
  unfold formatWorkoutSummary WorkoutType.code
  simp

/-- C8: any continuous-tempo lap set whose distances sum to 5011.28 m and
moving times sum to 1238 s formats, through `calculateTempoBlockMetrics` and
`formatWorkoutSummary`, to exactly `"T 3.1 mi @ avg 6:38/mi"`. -/
theorem C8_tempo_roundtrip :
    ∀ laps : List HrLap,
      (laps.map (·.distance)).sum = 5011.28 →
      (laps.map (·.moving_time)).sum = 1238 →
      formatWorkoutSummary
        { type := .T, tempo_structure := some .continuous
          metrics := some (calculateTempoBlockMetrics laps)
          interval_metrics := none, repetition_metrics := none } =
        "T 3.1 mi @ avg 6:38/mi" := by
  intro laps hd ht
  rw [formatWorkoutSummary_tempo_continuous]
  have hdm : (calculateTempoBlockMetrics laps).distance_miles = 5011.28 / 1609.344 := by
    unfold calculateTempoBlockMetrics
    rw [hd]
  have hpace : (calculateTempoBlockMetrics laps).pace_seconds_per_mile =
      jsDiv 1238 (5011.28 / 1609.344) := by
    unfold calculateTempoBlockMetrics
    rw [hd, ht]
  rw [hdm, hpace]
  with_unfolding_all decide

/-- Witness for C8 on a single lap with the fixture totals. -/
theorem C8_tempo_roundtrip_witness :
    formatWorkoutSummary
      { type := .T, tempo_structure := some .continuous
        metrics := some (calculateTempoBlockMetrics [⟨5011.28, 1238, 150⟩])
        interval_metrics := none, repetition_metrics := none } =
      "T 3.1 mi @ avg 6:38/mi" :=
  C8_tempo_roundtrip [⟨5011.28, 1238, 150⟩] (by simp) (by simp)

/-!  Periodicity machinery for the PatternDetector claims.

`unitValid arr len` is shown equivalent to pointwise periodicity
(`arr t = arr (t % len)`), which in turn is equivalent to shift periodicity
(`arr (t + len) = arr t`); a Fine–Wilf-style argument then shows that the
shortest valid unit length of a `k`-fold repetition of `u` divides
`u.length`. -/

lemma shiftPeriod_zero (a : List ℚ) : shiftPeriod a 0 := fun _ _ => rfl

lemma modPeriod_iff_shiftPeriod (a : List ℚ) (p : ℕ) (hp : 0 < p) :
    modPeriod a p ↔ shiftPeriod a p := by
  constructor
  · intro h t ht
    have h1 := h (t + p) ht
    have h2 := h t (by omega)
    rw [Nat.add_mod_right] at h1
    rw [h1, h2]
  · intro h
    intro t
    induction t using Nat.strong_induction_on with
    | _ t ih =>
        intro ht
        by_cases hlt : t < p
        · rw [Nat.mod_eq_of_lt hlt]
        · push_neg at hlt
          have e : t - p + p = t := by omega
          have h1 := h (t - p) (by omega)
          rw [e] at h1
          have h2 := ih (t - p) (by omega) (by omega)
          rw [h1, h2, ← Nat.mod_eq_sub_mod hlt]

lemma shiftPeriod_sub (a : List ℚ) (p q : ℕ) (_hq : 0 < q) (hle : q ≤ p)
    (hn : p + q ≤ a.length) (hp : shiftPeriod a p) (hq' : shiftPeriod a q) :
    shiftPeriod a (p - q) := by
  intro t ht
  by_cases hcase : t + p < a.length
  · have h1 := hp t hcase
    have h2 := hq' (t + (p - q)) (by omega)
    have e : t + (p - q) + q = t + p := by omega
    rw [e] at h2
    rw [← h2, h1]
  · have h1 := hq' (t - q) (by omega)
    have e1 : t - q + q = t := by omega
    rw [e1] at h1
    have h2 := hp (t - q) (by omega)
    have e2 : t - q + p = t + (p - q) := by omega
    rw [e2] at h2
    rw [h2, h1]

/-- Fine–Wilf style lemma: two shift periods whose sum fits in the list length
combine to a `gcd` period. -/
lemma fine_wilf (a : List ℚ) :
    ∀ (s p q : ℕ), p + q ≤ s → p + q ≤ a.length →
      shiftPeriod a p → shiftPeriod a q → shiftPeriod a (Nat.gcd p q) := by
  intro s
  induction s with
  | zero =>
      intro p q hs _ _ _
      have hp0 : p = 0 := by omega
      have hq0 : q = 0 := by omega
      subst hp0 hq0
      exact shiftPeriod_zero a
  | succ s ih =>
      intro p q hs hn hp hq
      by_cases hq0 : q = 0
      · subst hq0
        rw [Nat.gcd_zero_right]
        exact hp
      by_cases hp0 : p = 0
      · subst hp0
        rw [Nat.gcd_zero_left]
        exact hq
      rcases le_total q p with hle | hle
      · have hsub := shiftPeriod_sub a p q (by omega) hle hn hp hq
        have hrec := ih (p - q) q (by omega) (by omega) hsub hq
        rwa [Nat.gcd_sub_self_left hle] at hrec
      · have hsub := shiftPeriod_sub a q p (by omega) hle (by omega) hq hp
        have hrec := ih p (q - p) (by omega) (by omega) hp hsub
        rwa [Nat.gcd_sub_self_right hle] at hrec

lemma getD_take_of_lt (l : List ℚ) (m j : ℕ) (h : j < m) :
    (l.take m).getD j 0 = l.getD j 0 := by
  rw [List.getD_eq_getElem?_getD, List.getD_eq_getElem?_getD,
    List.getElem?_take_of_lt h]

lemma getD_drop' (l : List ℚ) (m j : ℕ) :
    (l.drop m).getD j 0 = l.getD (m + j) 0 := by
  rw [List.getD_eq_getElem?_getD, List.getD_eq_getElem?_getD, List.getElem?_drop]

/-- A full chunk matches the unit iff the underlying entries repeat
pointwise. -/
lemma chunk_eq_iff_pointwise (arr : List ℚ) (len i : ℕ) (_hlen : 0 < len)
    (hle : (i + 1) * len ≤ arr.length) :
    ((arr.drop (i * len)).take len = arr.take len) ↔
      ∀ j < len, arr.getD (i * len + j) 0 = arr.getD j 0 := by
  have hlenle : len ≤ arr.length := by nlinarith
  constructor
  · intro h j hj
    have hcong := congrArg (fun l => l.getD j 0) h
    simp only [getD_take_of_lt _ _ _ hj, getD_drop'] at hcong
    exact hcong
  · intro h
    apply List.ext_getElem?
    intro j
    by_cases hj : j < len
    · rw [List.getElem?_take_of_lt hj, List.getElem?_take_of_lt hj, List.getElem?_drop]
      have hidx : i * len + j < arr.length := by nlinarith
      have hjlt : j < arr.length := by omega
      rw [List.getElem?_eq_getElem hidx, List.getElem?_eq_getElem hjlt]
      have := h j hj
      rw [List.getD_eq_getElem _ _ hidx, List.getD_eq_getElem _ _ hjlt] at this
      rw [this]
    · push_neg at hj
      rw [List.getElem?_take_eq_none hj, List.getElem?_take_eq_none hj]

/-- The trailing short chunk matches an initial segment of the unit iff the
tail entries repeat pointwise. -/
lemma tail_eq_iff_pointwise (arr : List ℚ) (len : ℕ) (hlen : 0 < len) :
    (arr.drop (arr.length / len * len) = (arr.take len).take (arr.length % len)) ↔
      ∀ j < arr.length % len,
        arr.getD (arr.length / len * len + j) 0 = arr.getD j 0 := by
  have hdm : arr.length / len * len + arr.length % len = arr.length := by
    rw [Nat.mul_comm]
    exact Nat.div_add_mod arr.length len
  have hmlt : arr.length % len < len := Nat.mod_lt _ hlen
  have htt : (arr.take len).take (arr.length % len) = arr.take (arr.length % len) := by
    rw [List.take_take, Nat.min_eq_left (by omega)]
  rw [htt]
  constructor
  · intro h j hj
    have hcong := congrArg (fun l => l.getD j 0) h
    simp only [getD_take_of_lt _ _ _ hj, getD_drop'] at hcong
    exact hcong
  · intro h
    apply List.ext_getElem?
    intro j
    by_cases hj : j < arr.length % len
    · rw [List.getElem?_take_of_lt hj, List.getElem?_drop]
      have hidx : arr.length / len * len + j < arr.length := by omega
      have hjlt : j < arr.length := by omega
      rw [List.getElem?_eq_getElem hidx, List.getElem?_eq_getElem hjlt]
      have := h j hj
      rw [List.getD_eq_getElem _ _ hidx, List.getD_eq_getElem _ _ hjlt] at this
      rw [this]
    · push_neg at hj
      rw [List.getElem?_take_eq_none hj]
      have : arr.length - arr.length / len * len = arr.length % len := by omega
      rw [List.getElem?_eq_none]
      rw [List.length_drop, this]
      exact hj

/-- `unitValid` is two full-repetition bounds plus pointwise periodicity. -/
lemma unitValid_iff_modPeriod (arr : List ℚ) (len : ℕ) (hlen : 0 < len) :
    unitValid arr len ↔ 2 ≤ arr.length / len ∧ modPeriod arr len := by
  have hdm : arr.length / len * len + arr.length % len = arr.length := by
    rw [Nat.mul_comm]
    exact Nat.div_add_mod arr.length len
  have hmlt : arr.length % len < len := Nat.mod_lt _ hlen
  constructor
  · rintro ⟨h2, hchunks, htail⟩
    refine ⟨h2, ?_⟩
    intro t ht
    have hij : t = t / len * len + t % len := by
      rw [Nat.mul_comm]
      exact (Nat.div_add_mod t len).symm
    have hjlen : t % len < len := Nat.mod_lt _ hlen
    by_cases hfull : (t / len + 1) * len ≤ arr.length
    · have hidiv : t / len < arr.length / len := by
        have := (Nat.le_div_iff_mul_le hlen).mpr hfull
        omega
      have hpw := (chunk_eq_iff_pointwise arr len (t / len) hlen hfull).mp
        (hchunks (t / len) hidiv)
      have := hpw (t % len) hjlen
      rw [← hij] at this
      exact this
    · push_neg at hfull
      have hieq : t / len = arr.length / len := by
        have h1 : t / len ≤ arr.length / len := Nat.div_le_div_right (by omega)
        have h2' : arr.length / len < t / len + 1 := by
          by_contra hcon
          push_neg at hcon
          have hmul := Nat.mul_le_mul_right len hcon
          have hsel := Nat.div_mul_le_self arr.length len
          omega
        omega
      have hjmod : t % len < arr.length % len := by
        rw [hieq] at hij
        omega
      have hmodne : arr.length % len ≠ 0 := by omega
      have hpw := (tail_eq_iff_pointwise arr len hlen).mp (htail hmodne)
      have := hpw (t % len) hjmod
      rw [← hieq, ← hij] at this
      exact this
  · rintro ⟨h2, hmp⟩
    refine ⟨h2, ?_, ?_⟩
    · intro i hi
      have hfull : (i + 1) * len ≤ arr.length := by
        have := (Nat.le_div_iff_mul_le hlen).mp (by omega : i + 1 ≤ arr.length / len)
        omega
      apply (chunk_eq_iff_pointwise arr len i hlen hfull).mpr
      intro j hj
      have hidx : i * len + j < arr.length := by nlinarith
      have h1 := hmp (i * len + j) hidx
      have h2' := hmp j (by omega)
      have hmod : (i * len + j) % len = j % len := by
        rw [Nat.mul_comm, Nat.mul_add_mod]
      rw [h1, h2', hmod]
    · intro hne
      apply (tail_eq_iff_pointwise arr len hlen).mpr
      intro j hj
      have hidx : arr.length / len * len + j < arr.length := by omega
      have h1 := hmp (arr.length / len * len + j) hidx
      have h2' := hmp j (by omega)
      have hmod : (arr.length / len * len + j) % len = j % len := by
        rw [Nat.add_comm, Nat.add_mul_mod_self_right]
      rw [h1, h2', hmod]

lemma length_flatten_replicate (k : ℕ) (u : List ℚ) :
    ((List.replicate k u).flatten).length = k * u.length := by
  induction k with
  | zero => simp
  | succ k ih =>
      rw [List.replicate_succ, List.flatten_cons, List.length_append, ih]
      ring

lemma getD_flatten_replicate (k : ℕ) (u : List ℚ) :
    ∀ t, t < k * u.length →
      ((List.replicate k u).flatten).getD t 0 = u.getD (t % u.length) 0 := by
  induction k with
  | zero =>
      intro t ht
      omega
  | succ k ih =>
      intro t ht
      have hL : 0 < u.length := by
        rcases Nat.eq_zero_or_pos u.length with h | h
        · rw [h, Nat.mul_zero] at ht
          omega
        · exact h
      rw [List.replicate_succ, List.flatten_cons]
      by_cases h : t < u.length
      · rw [List.getD_append _ _ _ _ h, Nat.mod_eq_of_lt h]
      · push_neg at h
        rw [List.getD_append_right _ _ _ _ h]
        have ht' : t - u.length < k * u.length := by
          have : (k + 1) * u.length = k * u.length + u.length := by ring
          omega
        rw [ih (t - u.length) ht', ← Nat.mod_eq_sub_mod h]

lemma modPeriod_flatten_replicate (k : ℕ) (u : List ℚ) (hu : u ≠ []) :
    modPeriod ((List.replicate k u).flatten) u.length := by
  have hL : 0 < u.length := List.length_pos.mpr hu
  intro t ht
  rw [length_flatten_replicate] at ht
  have hk : 0 < k := by
    by_contra h
    push_neg at h
    interval_cases k
    omega
  have hmod : t % u.length < k * u.length := by
    have h1 : t % u.length < u.length := Nat.mod_lt _ hL
    have h2 : u.length ≤ k * u.length := Nat.le_mul_of_pos_left _ hk
    omega
  rw [getD_flatten_replicate k u t ht, getD_flatten_replicate k u (t % u.length) hmod,
    Nat.mod_mod_of_dvd _ dvd_rfl]

/-- `find?` over `range' s n` returns exactly the least element of the range
satisfying the predicate. -/
lemma find?_range'_eq_some (p : ℕ → Bool) :
    ∀ (n s x : ℕ), ((List.range' s n).find? p = some x) ↔
      (p x ∧ s ≤ x ∧ x < s + n ∧ ∀ y, s ≤ y → y < x → ¬ p y) := by
  intro n
  induction n with
  | zero =>
      intro s x
      constructor
      · intro h
        simp [List.range'] at h
      · rintro ⟨_, h1, h2, _⟩
        omega
  | succ n ih =>
      intro s x
      rw [List.range'_succ]
      by_cases hp : p s
      · rw [List.find?_cons_of_pos _ hp]
        constructor
        · intro h
          injection h with h
          subst h
          exact ⟨hp, le_rfl, by omega, fun y hy1 hy2 => absurd hy1 (by omega)⟩
        · rintro ⟨hpx, hsx, _, hmin⟩
          rcases eq_or_lt_of_le hsx with rfl | hlt
          · rfl
          · exact absurd hp (hmin s le_rfl hlt)
      · rw [List.find?_cons_of_neg _ hp, ih (s + 1) x]
        constructor
        · rintro ⟨hpx, hsx, hxn, hmin⟩
          exact ⟨hpx, by omega, by omega, fun y hy1 hy2 => by
            rcases eq_or_lt_of_le hy1 with rfl | hys
            · exact hp
            · exact hmin y (by omega) hy2⟩
        · rintro ⟨hpx, hsx, hxn, hmin⟩
          refine ⟨hpx, ?_, by omega, fun y hy1 hy2 => hmin y (by omega) hy2⟩
          rcases eq_or_lt_of_le hsx with rfl | h
          · exact absurd hpx hp
          · omega

/-- If `len0` is the least valid unit length and lies in range, the
specification detector returns it. -/
lemma findRepeatingPatternSpec_eq_of_minimal (arr : List ℚ) (len0 : ℕ)
    (h1 : 1 ≤ len0) (h2 : len0 ≤ arr.length / 2) (hv : unitValid arr len0)
    (hmin : ∀ m, 1 ≤ m → m < len0 → ¬ unitValid arr m) :
    findRepeatingPatternSpec arr = some (arr.take len0, arr.length / len0) := by
  unfold findRepeatingPatternSpec
  have hfind : (List.range' 1 (arr.length / 2)).find?
      (fun len => decide (unitValid arr len)) = some len0 := by
    rw [find?_range'_eq_some]
    refine ⟨by simpa using hv, h1, by omega, ?_⟩
    intro y hy1 hy2
    simpa using hmin y hy1 hy2
  rw [hfind]
  rfl

/-- Core of the C5 analysis: the detector on `u^k` returns its least valid
unit length, that length divides `u.length`, and appending a proper initial
segment of `u` leaves the detected pattern unchanged while the full-repetition
count cannot decrease. -/
lemma findRepeatingPattern_append_proper_prefix (u p : List ℚ) (k : ℕ)
    (hu : u ≠ []) (hk : 2 ≤ k) (hpre : ∃ r, p ++ r = u ∧ r ≠ []) :
    ∃ P s s', findRepeatingPattern ((List.replicate k u).flatten) = some (P, s) ∧
      findRepeatingPattern ((List.replicate k u).flatten ++ p) = some (P, s') ∧
      s ≤ s' := by
  have hL : 0 < u.length := List.length_pos.mpr hu
  set arr := (List.replicate k u).flatten with harr
  have hlen : arr.length = k * u.length := length_flatten_replicate k u
  have hmodL : modPeriod arr u.length := modPeriod_flatten_replicate k u hu
  have h2L : 2 * u.length ≤ k * u.length := Nat.mul_le_mul_right _ hk
  have hvalidL : unitValid arr u.length := by
    apply (unitValid_iff_modPeriod arr u.length hL).mpr
    refine ⟨?_, hmodL⟩
    rw [hlen, Nat.mul_div_cancel _ hL]
    exact hk
  have hex : ∃ m, 1 ≤ m ∧ unitValid arr m := ⟨u.length, hL, hvalidL⟩
  set len0 := Nat.find hex with hlen0def
  obtain ⟨hl1, hlv⟩ := Nat.find_spec hex
  have hmin : ∀ m, 1 ≤ m → m < len0 → ¬ unitValid arr m := fun m hm1 hmlt hmv =>
    Nat.find_min hex hmlt ⟨hm1, hmv⟩
  have hle0L : len0 ≤ u.length := Nat.find_min' hex ⟨hL, hvalidL⟩
  have harrhalf : u.length ≤ arr.length / 2 := by
    rw [hlen]
    exact (Nat.le_div_iff_mul_le (by norm_num)).mpr (by omega)
  have hrange : len0 ≤ arr.length / 2 := le_trans hle0L harrhalf
  have hhalf_le : 2 * (arr.length / 2) ≤ arr.length := by
    have := Nat.div_mul_le_self arr.length 2
    omega
  -- the least valid length divides u.length
  have hdvd : len0 ∣ u.length := by
    have hg1 : 0 < Nat.gcd len0 u.length := Nat.gcd_pos_of_pos_left _ (by omega)
    have hsp0 : shiftPeriod arr len0 :=
      (modPeriod_iff_shiftPeriod arr len0 (by omega)).mp
        ((unitValid_iff_modPeriod arr len0 (by omega)).mp hlv).2
    have hspL : shiftPeriod arr u.length :=
      (modPeriod_iff_shiftPeriod arr u.length hL).mp hmodL
    have hsum : len0 + u.length ≤ arr.length := by
      rw [hlen]
      omega
    have hspg : shiftPeriod arr (Nat.gcd len0 u.length) :=
      fine_wilf arr (len0 + u.length) len0 u.length le_rfl hsum hsp0 hspL
    have hvg : unitValid arr (Nat.gcd len0 u.length) := by
      apply (unitValid_iff_modPeriod arr _ hg1).mpr
      refine ⟨?_, (modPeriod_iff_shiftPeriod arr _ hg1).mpr hspg⟩
      apply (Nat.le_div_iff_mul_le hg1).mpr
      have hgle : Nat.gcd len0 u.length ≤ len0 := Nat.gcd_le_left _ (by omega)
      omega
    have hge : len0 ≤ Nat.gcd len0 u.length := Nat.find_min' hex ⟨hg1, hvg⟩
    have hgle : Nat.gcd len0 u.length ≤ len0 := Nat.gcd_le_left _ (by omega)
    have hgeq : Nat.gcd len0 u.length = len0 := le_antisymm hgle hge
    calc len0 = Nat.gcd len0 u.length := hgeq.symm
    _ ∣ u.length := Nat.gcd_dvd_right _ _
  have hfind1 : findRepeatingPattern arr = some (arr.take len0, arr.length / len0) := by
    rw [findRepeatingPattern_eq_spec]
    exact findRepeatingPatternSpec_eq_of_minimal arr len0 hl1 hrange hlv hmin
  -- the extended array
  obtain ⟨r, hru, hrne⟩ := hpre
  have hplen : p.length < u.length := by
    have hcl := congrArg List.length hru
    rw [List.length_append] at hcl
    have : 0 < r.length := List.length_pos.mpr hrne
    omega
  have hlen' : (arr ++ p).length = k * u.length + p.length := by
    rw [List.length_append, hlen]
  have hdvdn : len0 ∣ k * u.length := Dvd.dvd.mul_left hdvd k
  have hmp0 : modPeriod arr len0 :=
    ((unitValid_iff_modPeriod arr len0 (by omega)).mp hlv).2
  have hmod' : modPeriod (arr ++ p) len0 := by
    intro t ht
    rw [hlen'] at ht
    have hmlt0 : t % len0 < len0 := Nat.mod_lt _ (by omega)
    have hmltn : t % len0 < arr.length := by
      rw [hlen]
      omega
    have e2 : (arr ++ p).getD (t % len0) 0 = arr.getD (t % len0) 0 :=
      List.getD_append _ _ _ _ hmltn
    by_cases hcase : t < k * u.length
    · have e1 : (arr ++ p).getD t 0 = arr.getD t 0 :=
        List.getD_append _ _ _ _ (by rw [hlen]; omega)
      rw [e1, e2]
      exact hmp0 t (by rw [hlen]; omega)
    · push_neg at hcase
      have ht' : t - k * u.length < p.length := by omega
      have e1 : (arr ++ p).getD t 0 = p.getD (t - arr.length) 0 :=
        List.getD_append_right _ _ _ _ (by rw [hlen]; omega)
      rw [hlen] at e1
      have hpu : p.getD (t - k * u.length) 0 = u.getD (t - k * u.length) 0 := by
        have := List.getD_append p r 0 (t - k * u.length) ht'
        rw [hru] at this
        exact this.symm
      have huarr : u.getD (t - k * u.length) 0 = arr.getD (t - k * u.length) 0 := by
        rw [harr, getD_flatten_replicate k u _ (by omega),
          Nat.mod_eq_of_lt (by omega)]
      have harr' : arr.getD (t - k * u.length) 0 = arr.getD ((t - k * u.length) % len0) 0 :=
        hmp0 _ (by rw [hlen]; omega)
      have hmodeq : t % len0 = (t - k * u.length) % len0 := by
        obtain ⟨c, hc⟩ := hdvdn
        have hc' : k * u.length = c * len0 := by rw [hc, Nat.mul_comm]
        conv_lhs => rw [show t = (t - k * u.length) + c * len0 from by omega]
        rw [Nat.add_mul_mod_self_right]
      rw [e1, e2, hpu, huarr, harr', hmodeq]
  have hvalid' : unitValid (arr ++ p) len0 := by
    apply (unitValid_iff_modPeriod _ _ (by omega)).mpr
    refine ⟨?_, hmod'⟩
    have h2le : 2 ≤ arr.length / len0 :=
      ((unitValid_iff_modPeriod arr len0 (by omega)).mp hlv).1
    have hmono : arr.length / len0 ≤ (arr ++ p).length / len0 :=
      Nat.div_le_div_right (by rw [List.length_append]; omega)
    omega
  have hmin' : ∀ m, 1 ≤ m → m < len0 → ¬ unitValid (arr ++ p) m := by
    intro m hm1 hmlt hv'
    apply hmin m hm1 hmlt
    apply (unitValid_iff_modPeriod arr m hm1).mpr
    have hmn : 2 * m ≤ arr.length := by
      have hm2 : m ≤ arr.length / 2 := by omega
      omega
    refine ⟨(Nat.le_div_iff_mul_le hm1).mpr (by omega), ?_⟩
    intro t ht
    have hmp' := ((unitValid_iff_modPeriod (arr ++ p) m hm1).mp hv').2
    have hmltm : t % m < arr.length := by
      have : t % m ≤ t := Nat.mod_le _ _
      omega
    have := hmp' t (by rw [List.length_append]; omega)
    rwa [List.getD_append _ _ _ _ ht, List.getD_append _ _ _ _ hmltm] at this
  have hrange' : len0 ≤ (arr ++ p).length / 2 :=
    le_trans hrange (Nat.div_le_div_right (by rw [List.length_append]; omega))
  have hfind2 : findRepeatingPattern (arr ++ p) =
      some ((arr ++ p).take len0, (arr ++ p).length / len0) := by
    rw [findRepeatingPattern_eq_spec]
    exact findRepeatingPatternSpec_eq_of_minimal (arr ++ p) len0 hl1 hrange' hvalid' hmin'
  have htake : (arr ++ p).take len0 = arr.take len0 :=
    List.take_append_of_le_length (by rw [hlen]; omega)
  refine ⟨arr.take len0, arr.length / len0, (arr ++ p).length / len0,
    hfind1, by rw [hfind2, htake], ?_⟩
  exact Nat.div_le_div_right (by rw [List.length_append]; omega)

/-- C5 counterexample: with unit `u = [1,1]`, `k = 2` copies and proper
prefix `p = [1]`, appending `p` changes the counted number of full
repetitions from 4 to 5 (the pattern `[1]` is unchanged), so the claim that
appending a proper prefix changes neither the pattern nor the counted number
of full repetitions is false. -/
theorem C5_counterexample_reps_change :
    ([1] : List ℚ) ++ [1] = [1, 1] ∧
    (List.replicate 2 ([1, 1] : List ℚ)).flatten = [1, 1, 1, 1] ∧
    findRepeatingPattern ([1, 1, 1, 1] : List ℚ) = some ([1], 4) ∧
    findRepeatingPattern (([1, 1, 1, 1] : List ℚ) ++ [1]) = some ([1], 5) ∧
    (4 : ℕ) ≠ 5 := by
  refine ⟨rfl, rfl, by rfl, by rfl, by decide⟩

/-- C5 (amended): for every nonempty unit `u`, every `k ≥ 2` and every proper
initial segment `p` of `u`, appending `p` to the `k`-fold repetition of `u`
changes neither the pattern returned by `findRepeatingPattern` nor reduces the
counted number of full repetitions (the count can grow when the appended
segment completes further full chunks). -/
theorem C5_append_prefix_keeps_pattern :
    ∀ (u p : List ℚ) (k : ℕ), u ≠ [] → 2 ≤ k → (∃ r, p ++ r = u ∧ r ≠ []) →
      ∃ P s s',
        findRepeatingPattern ((List.replicate k u).flatten) = some (P, s) ∧
        findRepeatingPattern ((List.replicate k u).flatten ++ p) = some (P, s') ∧
        s ≤ s' :=
  fun u p k hu hk hpre => findRepeatingPattern_append_proper_prefix u p k hu hk hpre

/-- Witness for C5 with `u = [1,2]`, `k = 2`, `p = [1]`. -/
theorem C5_append_prefix_keeps_pattern_witness :
    ∃ P s s',
      findRepeatingPattern ((List.replicate 2 ([1, 2] : List ℚ)).flatten) = some (P, s) ∧
      findRepeatingPattern ((List.replicate 2 ([1, 2] : List ℚ)).flatten ++ [1]) =
        some (P, s') ∧
      s ≤ s' :=
  C5_append_prefix_keeps_pattern [1, 2] [1] 2 (by decide) (by norm_num)
    ⟨[2], rfl, by decide⟩

/-- C9 counterexample: at pace 59.5 s/mi the seconds field rounds up to 60 and
`formatPace` returns `"0:60"`, so the seconds part is not in 00–59. -/
theorem C9_counterexample_pace_59_5 : ¬ claimC9At (119 / 2) := by
  rintro ⟨s, h0, h59, heq, _hlen⟩
  have hfp : formatPace ((119 : ℚ) / 2) = "0:60" := by with_unfolding_all decide
  have hfl : toString (⌊((119 : ℚ) / 2) / 60⌋) = "0" := by with_unfolding_all decide
  rw [hfp, hfl] at heq
  lift s to ℕ using h0 with n
  have hb : n ≤ 59 := by exact_mod_cast h59
  have hkey : ∀ m : ℕ, m ≤ 59 →
      ¬(("0:60" : String) = "0" ++ ":" ++ padStart2 (toString ((m : ℤ)))) := by decide
  exact hkey n hb heq

lemma padStart2_length_of_le (s : ℤ) (h0 : 0 ≤ s) (h60 : s ≤ 60) :
    (padStart2 (toString s)).length = 2 := by
  lift s to ℕ using h0 with n
  have hb : n ≤ 60 := by exact_mod_cast h60
  exact (by decide :
    ∀ m : ℕ, m ≤ 60 → (padStart2 (toString ((m : ℤ)))).length = 2) n hb

/-- C9 (amended): for every nonnegative pace, `formatPace` returns
`MM:SS` with minutes `⌊pace/60⌋` and the seconds field
`Math.round(pace % 60)` zero-padded to two digits — the seconds value lies in
0–60 (60 occurs when the remainder rounds up, e.g. at pace 59.5). -/
theorem C9_formatPace_minutes_seconds :
    ∀ q : ℚ, 0 ≤ q →
      ∃ s : ℤ, s = jsRound (q - 60 * (⌊q / 60⌋ : ℚ)) ∧ 0 ≤ s ∧ s ≤ 60 ∧
        formatPace q = toString ⌊q / 60⌋ ++ ":" ++ padStart2 (toString s) ∧
        (padStart2 (toString s)).length = 2 := by
  intro q hq
  have hq60 : (0 : ℚ) ≤ q / 60 := by positivity
  have htr : jsTrunc (q / 60) = ⌊q / 60⌋ := by
    unfold jsTrunc
    rw [if_pos hq60]
  have hsplit : 60 * (q / 60) = q := by ring
  have h1 : ((⌊q / 60⌋ : ℤ) : ℚ) ≤ q / 60 := Int.floor_le _
  have h2 : q / 60 < (⌊q / 60⌋ : ℚ) + 1 := Int.lt_floor_add_one _
  have hrem0 : 0 ≤ q - 60 * (⌊q / 60⌋ : ℚ) := by nlinarith
  have hrem60 : q - 60 * (⌊q / 60⌋ : ℚ) < 60 := by nlinarith
  have hrw : jsRem q 60 = q - 60 * (⌊q / 60⌋ : ℚ) := by
    unfold jsRem
    rw [htr]
  have hs0 : 0 ≤ jsRound (jsRem q 60) := by
    rw [hrw]
    unfold jsRound
    exact Int.le_floor.mpr (by push_cast; linarith)
  have hs60 : jsRound (jsRem q 60) ≤ 60 := by
    rw [hrw]
    unfold jsRound
    have : (⌊(q - 60 * (⌊q / 60⌋ : ℚ)) + 1/2⌋ : ℤ) < 61 :=
      Int.floor_lt.mpr (by push_cast; linarith)
    omega
  refine ⟨jsRound (jsRem q 60), by rw [hrw], hs0, hs60, rfl,
    padStart2_length_of_le _ hs0 hs60⟩

/-- Witness for C9 at pace 385 s/mi (6:25). -/
theorem C9_formatPace_minutes_seconds_witness :
    ∃ s : ℤ, s = jsRound ((385 : ℚ) - 60 * (⌊(385 : ℚ) / 60⌋ : ℚ)) ∧ 0 ≤ s ∧ s ≤ 60 ∧
      formatPace 385 = toString ⌊(385 : ℚ) / 60⌋ ++ ":" ++ padStart2 (toString s) ∧
      (padStart2 (toString s)).length = 2 :=
  C9_formatPace_minutes_seconds 385 (by norm_num)

/-- C3 counterexample: the scenario-A activity is classified Long (`L`), not
Easy (`E`), because 17714.6 m exceeds the 16093.44 m long-run threshold (and
5930 s exceeds 5400 s); the summary reads `"L …"`, not `"E …"`. -/
theorem C3_counterexample_scenarioA_is_long :
    (analyzeWorkoutDet c3Activity).map WorkoutAnalysisResult.type = some WorkoutType.L ∧
    WorkoutType.L ≠ WorkoutType.E ∧
    (analyzeWorkoutDet c3Activity).map formatWorkoutSummary =
      some ("L 11 mi @ 8:59/mi (HR 130)") := by
  refine ⟨?_, by decide, ?_⟩ <;> with_unfolding_all decide

/-- C3 (amended): every activity with distance 17714.6 m, moving time 5930 s,
average HR 130 and a nonempty lap list entirely in pace zones 1–2 is
classified deterministically (no AI call) as Long, and its summary formats to
`"L 11 mi @ 8:59/mi (HR 130)"`. -/
theorem C3_scenarioA_classified_long :
    ∀ a : Activity, a.distance = 17714.6 → a.moving_time = 5930 →
      a.average_heartrate = 130 → a.laps ≠ [] →
      (∀ lap ∈ a.laps, lap.pace_zone = some 1 ∨ lap.pace_zone = some 2) →
      ∃ r, analyzeWorkoutDet a = some r ∧ r.type = .L ∧
        formatWorkoutSummary r = "L 11 mi @ 8:59/mi (HR 130)" := by
  intro a hd ht hh hne hz
  have heasy : isEasyRun a = true := by
    unfold isEasyRun
    rw [Bool.and_eq_true]
    refine ⟨by simp [hne], ?_⟩
    rw [List.all_eq_true]
    intro lap hl
    rcases hz lap hl with h | h <;> simp [h]
  have hlong : isLongRun a = true := by
    unfold isLongRun
    rw [hd]
    have h1 : ((16093.44 : ℚ) ≤ 17714.6) := by norm_num
    simp [h1]
  refine ⟨{ type := .L, tempo_structure := none
            metrics := some (calculateRunMetrics ⟨17714.6, 5930, 130⟩)
            interval_metrics := none, repetition_metrics := none }, ?_, rfl, ?_⟩
  · simp [analyzeWorkoutDet, heasy, hlong, hd, ht, hh]
  · with_unfolding_all decide

/-- Witness for C3 on the concrete scenario-A activity. -/
theorem C3_scenarioA_classified_long_witness :
    ∃ r, analyzeWorkoutDet c3Activity = some r ∧ r.type = .L ∧
      formatWorkoutSummary r = "L 11 mi @ 8:59/mi (HR 130)" :=
  C3_scenarioA_classified_long c3Activity rfl rfl rfl (by simp [c3Activity])
    (by intro lap hl; fin_cases hl; left; rfl)

/-- C10 counterexample: with existing description
`"keep me\nold note --FROM RUNNOTE"` and summary `" hi"` the first output
line is `"hi --from RunNote"` — the summary is also trimmed, not merely
collapsed — and the input line `"old note --FROM RUNNOTE"`, which is
nonempty and does not end with the literal marker (the case differs), is
nevertheless dropped from the output. -/
theorem C10_counterexample_trim_and_case :
    ¬ claimC10At (some (("keep me\nold note --FROM RUNNOTE").data))
      ((" hi").data) := by
  unfold claimC10At
  decide

/-- C10 (amended): for every existing description and summary, the output
splits into the sanitised summary line ending in the marker, a blank line,
and then exactly the kept lines of the description (or a single empty line
when none survive); no line after the first ends with the marker; every
description line with nonempty trimmed form that does not end with the
case-insensitive marker pattern is preserved, in order, as its trimmed form;
and the function is idempotent in the description argument. -/
theorem C10_apply_structure (d : Option (List Char)) (s : List Char) :
    splitNl (applyRunNoteToDescription d s) =
      (runNoteSummaryLine s ++ ' ' :: markerText) :: [] ::
        (if (keptLines (replaceCRLF (d.getD []))).isEmpty then [[]]
         else keptLines (replaceCRLF (d.getD []))) ∧
    (∀ l ∈ (splitNl (applyRunNoteToDescription d s)).tail,
      markerText.isSuffixOf l = false) ∧
    (∀ l ∈ splitNl (replaceCRLF (d.getD [])),
      trimEndChars l ≠ [] →
      endsWithMarkerB (jsTrimChars (trimEndChars l)) = false →
      trimEndChars l ∈ (splitNl (applyRunNoteToDescription d s)).tail) ∧
    applyRunNoteToDescription (some (applyRunNoteToDescription d s)) s =
      applyRunNoteToDescription d s := by
  refine ⟨splitNl_apply d s, ?_, ?_, apply_idem d s⟩
  · intro l hl
    rw [splitNl_apply] at hl
    simp only [List.tail_cons] at hl
    rcases List.mem_cons.mp hl with rfl | hl
    · decide
    · by_cases h : (keptLines (replaceCRLF (d.getD []))).isEmpty
      · rw [if_pos h] at hl
        have : l = [] := by
          rcases List.mem_singleton.mp hl with rfl
          rfl
        subst this
        decide
      · rw [if_neg h] at hl
        exact mem_keptLines_not_marker_suffix _ l hl
  · intro l hl hne hmk
    have hmem : trimEndChars l ∈ keptLines (replaceCRLF (d.getD [])) := by
      unfold keptLines
      refine List.mem_filter.mpr ⟨List.mem_map.mpr ⟨l, hl, rfl⟩, ?_⟩
      rw [hmk]
      have : (trimEndChars l).isEmpty = false := by
        cases hc : trimEndChars l with
        | nil => exact absurd hc hne
        | cons a t => rfl
      rw [this]
      rfl
    rw [splitNl_apply]
    simp only [List.tail_cons]
    have hempty : (keptLines (replaceCRLF (d.getD []))).isEmpty = false := by
      cases hc : keptLines (replaceCRLF (d.getD [])) with
      | nil => rw [hc] at hmem; exact absurd hmem (List.not_mem_nil _)
      | cons a t => rfl
    rw [hempty]
    simp only [Bool.false_eq_true, if_false]
    exact List.mem_cons_of_mem _ hmem

/-- Witness for the amended C10 on description `"keep me"` with summary
`"note"`: the line survives into the tail of the output. -/
theorem C10_apply_structure_witness :
    trimEndChars (("keep me").data) ∈
      (splitNl (applyRunNoteToDescription (some (("keep me").data))
        (("note").data))).tail :=
  (C10_apply_structure (some (("keep me").data)) (("note").data)).2.2.1
    (("keep me").data) (by decide) (by decide) (by decide)

end RunNote
